import Mathlib

/-!
# Block producer chain core (`blockproducer/chain.go`) and RPC server (`rpc/server.go`)

A shallow embedding of the block producer chain: the block-acceptance path
(`checkBlock`, `pushBlockWithoutCheck`, `pushBlock`, `fetchBlockByHeight`,
`LoadChain`, the loop of `processBlocks` with its stash), block production and
turns (`produceBlock`, `runCurrentTurn`), synchronisation (`sync`, `syncHead`),
the account address used by `produceBilling`; and of the RPC server: service
registration and dispatch to the test service, and `handleCipher`.

Conventions of the embedding

* Go pointers to immutable records are values; a nil pointer is `none`.
* A Go `error` result is an `Except Err _`; mutable receivers (`*Chain`) are
  threaded explicitly, so a method returns the chain after the call together
  with its result.
* `uint32` quantities are natural numbers, reduced modulo `2^32` where the
  source computes with them.
* Collaborators that live outside `chain.go` (hashing, Merkle tree, msgpack
  codec, signature verification, the meta state procedures, the block index,
  failure of store writes) are fields of `Env`; keys, transaction pool, turn
  schedule and peer calls are fields of `Services`, `Keys`, `BillingServices`
  and `CipherEnv`; the data file, the SQL storage and the log runtime opened
  by `LoadChain` are fields of `Startup`: every theorem holds for all of them.
* Calls made through the RPC caller and calls of `produceBlock` and
  `setNextTurn` are recorded in the result of the function that makes them;
  the calls issued through the caller of a chain are also kept in its field
  `cl`, without order since they are issued concurrently.
* A loop that may not end takes fuel; its result is `none` when the fuel runs
  out.
-/

set_option autoImplicit false

namespace BlockProducer

/-! ## Basic data -/

/-- Byte strings (`[]byte`). -/
abbrev Bytes := List Nat

/-- 32-byte fingerprint hash (`hash.Hash`), read as a number. -/
abbrev Hash := Nat

/-- Account address (`proto.AccountAddress`), a hash of a public key. -/
abbrev AccountAddress := Hash

/-- Node identifier (`proto.NodeID`). -/
abbrev NodeID := Nat

/-- Errors. The named constructors are the sentinel errors of the block producer
package; `external` is an error produced by another package (codec, store,
crypto); `wrap` is `errors.Wrap(cause, msg)`. -/
inductive Err where
  | ErrParentNotMatch
  | ErrParentNotFound
  | ErrInvalidMerkleTreeRoot
  | ErrInvalidHash
  | ErrInvalidSignature
  | ErrNotLeader
  | ErrNoSuchBlock
  | ErrMetaStateNotFound
  | metaStateErr (code : Nat)
  | external (msg : String)
  | wrap (cause : Err) (msg : String)
  deriving DecidableEq, Repr

open Err

deriving instance DecidableEq for Except

/-- The cause of an error (`errors.Cause`): strips every `wrap`. -/
def Err.cause : Err → Err
  | .wrap e _ => e.cause
  | e => e

/-- Modelled from the spec: `pi.Transaction` is an interface declared outside
`chain.go`; a transaction carries type, nonce, sender address, payload and
signature. -/
structure Transaction where
  TransactionType : Nat
  Nonce : Nat
  Sender : AccountAddress
  Payload : Bytes
  Signature : Bytes
  deriving DecidableEq, Repr

/-- Block header (`types.BPHeader`), with the fields `produceBlock` fills in and
the Merkle root `checkBlock` reads. Timestamps are nanoseconds. -/
structure BPHeader where
  Version : Nat
  Producer : AccountAddress
  ParentHash : Hash
  Timestamp : Int
  MerkleRoot : Hash
  deriving DecidableEq, Repr

/-- Signed header (`types.BPSignedHeader`): header, block hash, signee and
signature. -/
structure BPSignedHeader where
  Header : BPHeader
  BlockHash : Hash
  Signee : Bytes
  Signature : Bytes
  deriving DecidableEq, Repr

/-- Block (`types.BPBlock`). -/
structure BPBlock where
  SignedHeader : BPSignedHeader
  Transactions : List Transaction
  deriving DecidableEq, Repr

/-- Accessor `b.ParentHash()`. -/
def BPBlock.ParentHash (b : BPBlock) : Hash := b.SignedHeader.Header.ParentHash

/-- Accessor `b.BlockHash()`. -/
def BPBlock.BlockHash (b : BPBlock) : Hash := b.SignedHeader.BlockHash

/-- Accessor `b.Timestamp()`. -/
def BPBlock.Timestamp (b : BPBlock) : Int := b.SignedHeader.Header.Timestamp

/-- Accessor `b.Producer()`. -/
def BPBlock.Producer (b : BPBlock) : AccountAddress := b.SignedHeader.Header.Producer

/-! ## Block nodes -/

/-- In-memory block node (`blockNode`) with the fields `parent`, `hash`,
`height`, `count` that `chain.go` reads. A node whose parent pointer is nil is a
`root`; a node with a parent is a `link`. -/
inductive blockNode where
  | root (hash : Hash) (height : Nat) (count : Nat)
  | link (parent : blockNode) (hash : Hash) (height : Nat) (count : Nat)
  deriving DecidableEq, Repr

/-- Field `parent` (nil is `none`). -/
def blockNode.parent : blockNode → Option blockNode
  | .root _ _ _ => none
  | .link p _ _ _ => some p

/-- Field `hash`. -/
def blockNode.hash : blockNode → Hash
  | .root h _ _ => h
  | .link _ h _ _ => h

/-- Field `height`. -/
def blockNode.height : blockNode → Nat
  | .root _ h _ => h
  | .link _ _ h _ => h

/-- Field `count`. -/
def blockNode.count : blockNode → Nat
  | .root _ _ c => c
  | .link _ _ _ c => c

/-- Builds the node with the given parent pointer and cached fields. -/
def blockNode.make (parent : Option blockNode) (hash : Hash) (height count : Nat) : blockNode :=
  match parent with
  | none => .root hash height count
  | some p => .link p hash height count

/-- Modelled from the spec: `blockNode.ancestor` is declared outside `chain.go`;
`ancestor_by_height(h)` walks parents until `height == h` and returns none when
no such node is reached. -/
def blockNode.ancestor : blockNode → Nat → Option blockNode
  | .root hs ht c, h => if ht = h then some (.root hs ht c) else none
  | .link p hs ht c, h => if ht = h then some (.link p hs ht c) else p.ancestor h

/-- Modelled from the spec: the height of a time stamp is
`⌊(t − chain_init_time) / period⌋`, a 32-bit unsigned value. -/
def heightFromTime (chainInitTime period t : Int) : Nat :=
  (Int.fdiv (t - chainInitTime) period % (2 ^ 32 : Int)).toNat

/-- Modelled from the spec: `newBlockNode` is declared outside `chain.go`; the
node of a block caches the block hash, has
`height = ⌊(timestamp − chain_init_time) / period⌋`, and
`count = parent.count + 1` for a non-genesis node, `0` for genesis. -/
def newBlockNode (chainInitTime period : Int) (block : BPBlock) (parent : Option blockNode) :
    blockNode :=
  blockNode.make parent block.BlockHash (heightFromTime chainInitTime period block.Timestamp)
    (match parent with
     | none => 0
     | some p => (p.count + 1) % 2 ^ 32)

/-- Head state (`State`): node reference, head hash, height. -/
structure State where
  Node : Option blockNode
  Head : Hash
  Height : Nat
  deriving DecidableEq, Repr

/-! ## Store -/

/-- A bucket of the key/value store: key/value pairs in key order. -/
abbrev KV := List (Bytes × Bytes)

/-- Byte-wise lexicographic order on keys, the iteration order of a bucket. -/
def bytesLt : Bytes → Bytes → Bool
  | [], [] => false
  | [], _ :: _ => true
  | _ :: _, [] => false
  | a :: as, b :: bs => if a < b then true else if b < a then false else bytesLt as bs

/-- Reads a key of a bucket (`Bucket.Get`); a missing key is `none` (nil). -/
def KV.get : KV → Bytes → Option Bytes
  | [], _ => none
  | (k', v') :: rest, k => if k = k' then some v' else KV.get rest k

/-- Writes a key of a bucket, keeping key order and replacing an existing entry. -/
def KV.insert : KV → Bytes → Bytes → KV
  | [], k, v => [(k, v)]
  | (k', v') :: rest, k, v =>
    if k = k' then (k, v) :: rest
    else if bytesLt k k' then (k, v) :: (k', v') :: rest
    else (k', v') :: KV.insert rest k v

/-- The key/value file below `metaBucket`: the value under `metaStateKey`, the
block index bucket, and the buckets the meta state owns (transactions, accounts,
SQL chains, providers). -/
structure Store where
  state : Option Bytes
  blockIndex : KV
  entities : KV
  deriving DecidableEq, Repr

/-! ## Runtime and chain -/

/-- The part of the runtime (`rt`) that `chain.go` reads and writes. -/
structure Runtime where
  chainInitTime : Int
  period : Int
  bpNum : Nat
  index : Nat
  nodeID : NodeID
  peers : List NodeID
  accountAddress : AccountAddress
  nextTurn : Nat
  head : State
  deriving DecidableEq, Repr

/-- Accessor `rt.getHead()`. -/
def Runtime.getHead (r : Runtime) : State := r.head

/-- Mutator `rt.setHead(state)`. -/
def Runtime.setHead (r : Runtime) (s : State) : Runtime := { r with head := s }

/-- Accessor `rt.getNextTurn()`. -/
def Runtime.getNextTurn (r : Runtime) : Nat := r.nextTurn

/-- Modelled from the spec: `rt.getHeightFromTime` is declared outside
`chain.go`; `height(t) = ⌊(t − chain_init_time) / period⌋`. -/
def Runtime.getHeightFromTime (r : Runtime) (t : Int) : Nat :=
  heightFromTime r.chainInitTime r.period t

/-- A call issued through the RPC caller `c.cl`. -/
inductive Call where
  | AdviseNewBlock (peer : NodeID) (block : BPBlock)
  | FetchBlock (peer : NodeID) (height : Nat)
  deriving DecidableEq, Repr

/-- The chain (`Chain`): store, meta state, block index, runtime and caller. The
meta state and the block index are declared outside `chain.go` and stay
abstract. The caller `cl` is observed through the calls that the subroutines
started with `rt.goFunc` issue through it; they run concurrently, so the calls
are kept without order. -/
structure Chain (MS BI : Type) where
  db : Store
  ms : MS
  bi : BI
  rt : Runtime
  cl : Multiset Call

/-- The collaborators of `chain.go`. -/
structure Env (MS BI : Type) where
  /-- Hash of a transaction (`tx.Hash()`). -/
  txHash : Transaction → Hash
  /-- Root of the Merkle tree over hashes (`merkle.NewMerkle(hs).GetRoot()`). -/
  merkleRoot : List Hash → Hash
  /-- Canonical header encoding (`BPHeader.MarshalHash`). -/
  MarshalHash : BPHeader → Except String Bytes
  /-- Fingerprint hash (`hash.THashH`). -/
  THashH : Bytes → Hash
  /-- Signature check of a signed header (`BPSignedHeader.Verify`). -/
  Verify : BPSignedHeader → Except String Unit
  /-- Block encoder (`utils.EncodeMsgPack` at a block). -/
  encodeBlock : BPBlock → Except String Bytes
  /-- Block decoder (`utils.DecodeMsgPack` at a block); nil input is `[]`. -/
  decodeBlock : Bytes → Except String BPBlock
  /-- State encoder (`utils.EncodeMsgPack` at a state). -/
  encodeState : State → Except String Bytes
  /-- State decoder (`utils.DecodeMsgPack` at a state). -/
  decodeState : Bytes → Except String State
  /-- Key of a node in the block index bucket (`blockNode.indexKey`), an encoding
  of height and hash. -/
  indexKey : Nat → Hash → Bytes
  /-- Node initialisation on reload (`blockNode.initBlockNode(block, parent)`). -/
  initBlockNode : BPBlock → Option blockNode → blockNode
  /-- Insertion into the block index (`blockIndex.addBlock`). -/
  addBlock : BI → blockNode → BI
  /-- Lookup in the block index (`blockIndex.lookupNode`). -/
  lookupNode : BI → Hash → Option blockNode
  /-- Procedure `metaState.applyTransactionProcedure(tx)`, run inside a store
  transaction: it may change the meta state and the buckets the meta state owns. -/
  applyTransactionProcedure : Transaction → MS → KV → MS × Except Err KV
  /-- Procedure `metaState.partialCommitProcedure(txs)`. -/
  partialCommitProcedure : List Transaction → MS → KV → MS × Except Err KV
  /-- Procedure `metaState.reloadProcedure()`, run inside a read-only transaction. -/
  reloadProcedure : MS → Store → MS × Except Err Unit
  /-- Failure of `Bucket.Put` at a key and value (none: the write succeeds). -/
  putErr : Bytes → Bytes → Option String
  /-- Failure of the commit of a store transaction holding the given contents
  (none: the commit succeeds). -/
  commitErr : Store → Option String

/-- The key `metaStateKey`. -/
def metaStateKey : Bytes := "covenantsql-state".toList.map Char.toNat

/-- Key of a node in the block index bucket (`node.indexKey()`). -/
def blockNode.indexKey {MS BI : Type} (env : Env MS BI) (n : blockNode) : Bytes :=
  env.indexKey n.height n.hash

/-- Hashes of the transactions of a block (`b.GetTxHashes()`). -/
def BPBlock.GetTxHashes {MS BI : Type} (env : Env MS BI) (b : BPBlock) : List Hash :=
  b.Transactions.map env.txHash

/-! ## Store transactions -/

section Operations

variable {MS BI : Type}

/-- Write of a key of the block index bucket inside a store transaction
(`tx.Bucket(metaBucket).Bucket(metaBlockIndexBucket).Put(k, v)`). -/
def putBlockIndex (env : Env MS BI) (tx : Store) (k v : Bytes) : Except Err Store :=
  match env.putErr k v with
  | some e => .error (.external e)
  | none => .ok { tx with blockIndex := tx.blockIndex.insert k v }

/-- Write of the state key inside a store transaction
(`tx.Bucket(metaBucket).Put(metaStateKey, v)`). -/
def putState (env : Env MS BI) (tx : Store) (v : Bytes) : Except Err Store :=
  match env.putErr metaStateKey v with
  | some e => .error (.external e)
  | none => .ok { tx with state := some v }

/-- Read-write store transaction (`db.Update(fn)`): `fn` runs on the chain, whose
`db` field is the transaction's view. When `fn` fails the store is rolled back
and the error returned; otherwise the transaction is committed, and a failed
commit rolls the store back as well. What `fn` did to the memory of the chain
stays. -/
def Update (env : Env MS BI) (c : Chain MS BI)
    (fn : Chain MS BI → Chain MS BI × Except Err Unit) : Chain MS BI × Except Err Unit :=
  match fn c with
  | (c1, .error e) => ({ c1 with db := c.db }, .error e)
  | (c1, .ok _) =>
    match env.commitErr c1.db with
    | some e => ({ c1 with db := c.db }, .error (.external e))
    | none => (c1, .ok ())

/-! ## Block validation and acceptance -/

/-- Validation of a block against the head (`Chain.checkBlock`, lines 380-406):
parent hash, Merkle root, block hash, in this order. It only reads the chain. -/
def checkBlock (env : Env MS BI) (c : Chain MS BI) (b : BPBlock) : Except Err Unit :=
  if b.ParentHash ≠ c.rt.getHead.Head then
    .error ErrParentNotMatch
  else
    let rootHash := env.merkleRoot (b.GetTxHashes env)
    if b.SignedHeader.Header.MerkleRoot ≠ rootHash then
      .error ErrInvalidMerkleTreeRoot
    else
      match env.MarshalHash b.SignedHeader.Header with
      | .error e => .error (.external e)
      | .ok enc =>
        let h := env.THashH enc
        if b.BlockHash ≠ h then .error ErrInvalidHash else .ok ()

/-- The loop `for _, v := range b.Transactions` of `pushBlockWithoutCheck`
(lines 433-437): applies the transactions in order and stops at the first
failure. -/
def applyTransactions (env : Env MS BI) :
    List Transaction → Chain MS BI → Chain MS BI × Except Err Unit
  | [], c => (c, .ok ())
  | v :: vs, c =>
    match env.applyTransactionProcedure v c.ms c.db.entities with
    | (ms1, .error e) => ({ c with ms := ms1 }, .error e)
    | (ms1, .ok ent1) =>
      applyTransactions env vs { c with ms := ms1, db := { c.db with entities := ent1 } }

/-- The function passed to `db.Update` by `pushBlockWithoutCheck` (lines 428-449). -/
def pushBlockBatch (env : Env MS BI) (b : BPBlock) (node : blockNode) (state : State)
    (encBlock encState : Bytes) (c : Chain MS BI) : Chain MS BI × Except Err Unit :=
  match putBlockIndex env c.db (node.indexKey env) encBlock with
  | .error e => (c, .error e)
  | .ok tx1 =>
    match applyTransactions env b.Transactions { c with db := tx1 } with
    | (c2, .error e) => (c2, .error e)
    | (c2, .ok _) =>
      match env.partialCommitProcedure b.Transactions c2.ms c2.db.entities with
      | (ms3, .error e) => ({ c2 with ms := ms3 }, .error e)
      | (ms3, .ok ent3) =>
        match putState env { c2.db with entities := ent3 } encState with
        | .error e => ({ c2 with ms := ms3, db := { c2.db with entities := ent3 } }, .error e)
        | .ok tx4 =>
          ({ db := tx4, ms := ms3, bi := env.addBlock c2.bi node, rt := c2.rt.setHead state,
             cl := c2.cl },
            .ok ())

/-- The node `pushBlockWithoutCheck` creates for a block (line 411). -/
def pushNode (c : Chain MS BI) (b : BPBlock) : blockNode :=
  newBlockNode c.rt.chainInitTime c.rt.period b c.rt.getHead.Node

/-- The state `pushBlockWithoutCheck` creates for a block (lines 412-416). -/
def pushState (c : Chain MS BI) (b : BPBlock) : State :=
  { Node := some (pushNode c b), Head := (pushNode c b).hash, Height := (pushNode c b).height }

/-- Acceptance without validation (`Chain.pushBlockWithoutCheck`, lines 408-451). -/
def pushBlockWithoutCheck (env : Env MS BI) (c : Chain MS BI) (b : BPBlock) :
    Chain MS BI × Except Err Unit :=
  let node := pushNode c b
  let state := pushState c b
  match env.encodeBlock b with
  | .error e => (c, .error (.external e))
  | .ok encBlock =>
    match env.encodeState state with
    | .error e => (c, .error (.external e))
    | .ok encState => Update env c (pushBlockBatch env b node state encBlock encState)

/-- Acceptance of a block (`Chain.pushBlock`, lines 461-474). -/
def pushBlock (env : Env MS BI) (c : Chain MS BI) (b : BPBlock) :
    Chain MS BI × Except Err Unit :=
  match checkBlock env c b with
  | .error e => (c, .error (.wrap e "check block failed"))
  | .ok _ => pushBlockWithoutCheck env c b

/-! ## Block lookup -/

/-- Lookup of a block by height (`Chain.fetchBlockByHeight`, lines 608-626). The
result is the block and the count of its node, or an error; `none` is the
run-time panic of calling `ancestor` through a nil head node. -/
def fetchBlockByHeight (env : Env MS BI) (c : Chain MS BI) (h : Nat) :
    Option (Except Err (BPBlock × Nat)) :=
  match c.rt.getHead.Node with
  | none => none
  | some head =>
    match head.ancestor h with
    | none => some (.error ErrNoSuchBlock)
    | some node =>
      let k := node.indexKey env
      let v := (c.db.blockIndex.get k).getD []
      match env.decodeBlock v with
      | .error e => some (.error (.external e))
      | .ok b => some (.ok (b, node.count))

end Operations

/-! ## Reload -/

section Reload

variable {MS BI : Type}

/-- One call of the function `LoadChain` passes to `blocks.ForEach` (lines
329-361): decodes the block, finds its parent (none for the first block, the
last node when the parent hash is the last hash and the signature verifies, a
node of the index otherwise), initialises the node and adds it to the index.
Returns the node, which becomes `last`, and the index. -/
def loadBlock (env : Env MS BI) (v : Bytes) (last : Option blockNode) (bi : BI) :
    Except Err (blockNode × BI) :=
  match env.decodeBlock v with
  | .error e => .error (.external e)
  | .ok block =>
    let found : Except Err (Option blockNode) :=
      match last with
      | none => .ok none
      | some l =>
        if block.ParentHash = l.hash then
          match env.Verify block.SignedHeader with
          | .error e => .error (.external e)
          | .ok _ => .ok (some l)
        else
          match env.lookupNode bi block.ParentHash with
          | none => .error ErrParentNotFound
          | some p => .ok (some p)
    match found with
    | .error e => .error e
    | .ok parent =>
      let node := env.initBlockNode block parent
      .ok (node, env.addBlock bi node)

/-- The iteration `blocks.ForEach` of `LoadChain` over the block index bucket,
in key order, stopping at the first error. -/
def loadBlocks (env : Env MS BI) : KV → Option blockNode → BI → Except Err (Option blockNode × BI)
  | [], last, bi => .ok (last, bi)
  | (_, v) :: rest, last, bi =>
    match loadBlock env v last bi with
    | .error e => .error e
    | .ok (node, bi1) => loadBlocks env rest (some node) bi1

/-- The read-only transaction of `LoadChain` (`chain.db.View`, lines 311-374),
which rebuilds head, block index and meta state from the store. The argument is
the chain as constructed in lines 268-279: opened store, new meta state, new
block index, new runtime. -/
def loadChainView (env : Env MS BI) (c0 : Chain MS BI) : Except Err (Chain MS BI) :=
  match c0.db.state with
  | none => .error ErrMetaStateNotFound
  | some metaEnc =>
    match env.decodeState metaEnc with
    | .error e => .error (.external e)
    | .ok state =>
      match loadBlocks env c0.db.blockIndex none c0.bi with
      | .error e => .error e
      | .ok (_, bi1) =>
        match env.reloadProcedure c0.ms c0.db with
        | (_, .error e) => .error e
        | (ms1, .ok _) =>
          .ok { db := c0.db, ms := ms1, bi := bi1, rt := c0.rt.setHead state, cl := c0.cl }

end Reload

/-! ## Block processing loop -/

section Loop

variable {MS BI : Type}

/-- The value `n - 1` for a `uint32` value `n`, as the source computes it. -/
def u32Pred (n : Nat) : Nat := (n % 2 ^ 32 + (2 ^ 32 - 1)) % 2 ^ 32

/-- State of the loop of `processBlocks`: the chain, the local `stash`, the
stashes handed to `returnStash` so far (oldest first) and the blocks `pushBlock`
was called with so far (oldest first). -/
structure BlockLoop (MS BI : Type) where
  chain : Chain MS BI
  stash : List BPBlock
  returned : List (List BPBlock)
  pushed : List BPBlock

/-- One iteration of the loop of `processBlocks` on a block received from
`blocksFromRPC` (lines 744-769). -/
def processBlock (env : Env MS BI) (s : BlockLoop MS BI) (block : BPBlock) : BlockLoop MS BI :=
  let h := s.chain.rt.getHeightFromTime block.Timestamp
  if h > u32Pred s.chain.rt.getNextTurn then
    { s with stash := s.stash ++ [block] }
  else
    let s1 : BlockLoop MS BI :=
      if h < u32Pred s.chain.rt.getNextTurn then s
      else { s with chain := (pushBlock env s.chain block).1, pushed := s.pushed ++ [block] }
    if s1.stash ≠ [] then
      { s1 with returned := s1.returned ++ [s1.stash], stash := [] }
    else s1

end Loop

/-! ## Specification-side notions -/

section SpecSide

variable {MS BI : Type}

/-- The transactions of a list were applied one after the other, each with
success, taking the meta state and its buckets from the first pair to the
second. -/
inductive AppliedInOrder (env : Env MS BI) : List Transaction → MS × KV → MS × KV → Prop where
  | nil (s : MS × KV) : AppliedInOrder env [] s s
  | cons (v : Transaction) (vs : List Transaction) (s s2 : MS × KV) (ms1 : MS) (ent1 : KV)
      (happly : env.applyTransactionProcedure v s.1 s.2 = (ms1, .ok ent1))
      (hrest : AppliedInOrder env vs (ms1, ent1) s2) : AppliedInOrder env (v :: vs) s s2

/-- Modelled from the spec: the leader of a height is the producer whose index
is `height mod bp_num`. -/
def leader (bpNum height : Nat) : Nat := height % bpNum

end SpecSide

/-! ## Block production, turns and peers -/

section Production

variable {MS BI : Type}

/-- The collaborators of block production, of the turn schedule and of the peer
calls, all declared outside `chain.go`. -/
structure Services (MS : Type) where
  /-- The constant `blockVersion`. -/
  blockVersion : Nat
  /-- Local private key (`kms.GetLocalPrivateKey()`). -/
  GetLocalPrivateKey : Except String Bytes
  /-- Transactions for the next block (`metaState.pullTxs()`). -/
  pullTxs : MS → MS × List Transaction
  /-- Completion and signature of a block (`BPBlock.PackAndSignBlock(priv)`). -/
  PackAndSignBlock : Bytes → BPBlock → Except String BPBlock
  /-- Effect of `rt.setNextTurn()` on the runtime. -/
  setNextTurn : Runtime → Runtime
  /-- Error of `CallNodeWithContext(ctx, id, MCCAdviseNewBlock, req, resp)` (none:
  the call succeeds). -/
  CallAdviseNewBlock : NodeID → BPBlock → Option String
  /-- Outcome of `CallNode(s, MCCFetchBlock, req, resp)`: the error, and the
  block of the response (none: nil). -/
  CallFetchBlock : NodeID → Nat → Option String × Option BPBlock

/-- Modelled from the spec: `rt.isMyTurn` is declared outside `chain.go`; it is
true iff the local index matches the slot of `next_turn`, the slot of a height
being `height mod bp_num`. -/
def Runtime.isMyTurn (r : Runtime) : Bool := r.nextTurn % r.bpNum == r.index

/-- The servers `produceBlock` advises (lines 507-508): the servers of the peer
list, in order, that are not the local node. -/
def adviseTargets (r : Runtime) : List NodeID := r.peers.filter (fun s => s ≠ r.nodeID)

/-- What a call of `produceBlock` did: the chain after the call, whose caller
holds the calls of the advise subroutines the call started, the result, those
calls on their own, and what the advise subroutines logged: the peer and the
error of its call (none: success). The subroutines run concurrently: calls and
log lines are kept without order. -/
structure Production (MS BI : Type) where
  chain : Chain MS BI
  result : Except Err Unit
  calls : Multiset Call
  adviseLog : Multiset (NodeID × Option String)

/-- The block `produceBlock` builds before it is packed and signed (lines
482-492): version, local account address as producer, head hash as parent, the
given time, and the pulled transactions; the other fields are zero. -/
def newBlock (sv : Services MS) (c : Chain MS BI) (now : Int) (txs : List Transaction) : BPBlock :=
  { SignedHeader :=
      { Header := { Version := sv.blockVersion, Producer := c.rt.accountAddress,
                    ParentHash := c.rt.getHead.Head, Timestamp := now, MerkleRoot := 0 },
        BlockHash := 0, Signee := [], Signature := [] },
    Transactions := txs }

/-- The advise calls of `produceBlock` for a block (lines 507-537): one subroutine
is started per server of the peer list, entry by entry, that is not the local
node, and each issues one `AdviseNewBlock` call carrying the block. -/
def adviseCalls (r : Runtime) (b : BPBlock) : Multiset Call :=
  Multiset.ofList ((adviseTargets r).map (fun id => Call.AdviseNewBlock id b))

/-- Production of a block (`Chain.produceBlock`, lines 476-540). -/
def produceBlock (sv : Services MS) (env : Env MS BI) (c : Chain MS BI) (now : Int) :
    Production MS BI :=
  match sv.GetLocalPrivateKey with
  | .error e => { chain := c, result := .error (.external e), calls := 0, adviseLog := 0 }
  | .ok priv =>
    let pulled := sv.pullTxs c.ms
    let c1 : Chain MS BI := { c with ms := pulled.1 }
    match sv.PackAndSignBlock priv (newBlock sv c now pulled.2) with
    | .error e => { chain := c1, result := .error (.external e), calls := 0, adviseLog := 0 }
    | .ok b =>
      match pushBlockWithoutCheck env c1 b with
      | (c2, .error e) => { chain := c2, result := .error e, calls := 0, adviseLog := 0 }
      | (c2, .ok _) =>
        { chain := { c2 with cl := c2.cl + adviseCalls c2.rt b },
          result := .ok (),
          calls := adviseCalls c2.rt b,
          adviseLog := Multiset.ofList
            ((adviseTargets c2.rt).map (fun id => (id, sv.CallAdviseNewBlock id b))) }

/-- The calls `runCurrentTurn` makes, in order. -/
inductive TurnEvent where
  | produceBlock (now : Int)
  | setNextTurn
  deriving DecidableEq, Repr

/-- The turn of the main cycle (`Chain.runCurrentTurn`, lines 649-666): the chain
after the call and the calls of `produceBlock` and `setNextTurn` it made. The
deferred `setNextTurn` runs when the function returns. -/
def runCurrentTurn (sv : Services MS) (env : Env MS BI) (c : Chain MS BI) (now : Int) :
    Chain MS BI × List TurnEvent :=
  if !c.rt.isMyTurn then
    ({ c with rt := sv.setNextTurn c.rt }, [TurnEvent.setNextTurn])
  else
    let p := produceBlock sv env c now
    ({ p.chain with rt := sv.setNextTurn p.chain.rt },
      [TurnEvent.produceBlock now, TurnEvent.setNextTurn])

/-- The inner loop of `sync` (lines 691-694): `for nextTurn <= height { nextTurn++ }`
on 32-bit values. The result is `none` when the fuel runs out. -/
def syncAdvance : Nat → Nat → Nat → Option Nat
  | 0, _, _ => none
  | fuel + 1, height, nextTurn =>
    if nextTurn ≤ height then syncAdvance fuel height ((nextTurn + 1) % 2 ^ 32)
    else some nextTurn

/-- The outer loop of `sync` (lines 675-695). The `k`-th reading of the clock
`rt.now()` is `clock k`; the loop starts with reading `tick`. The result is
`none` when the fuel runs out. -/
def syncLoop (clock : Nat → Int) : Nat → Nat → Runtime → Option Runtime
  | 0, _, _ => none
  | fuel + 1, tick, r =>
    let height := r.getHeightFromTime (clock tick)
    if r.nextTurn ≥ height then some r
    else
      match syncAdvance (fuel + 1) height r.nextTurn with
      | none => none
      | some n => syncLoop clock fuel (tick + 1) { r with nextTurn := n }

/-- Synchronisation at start (`Chain.sync`, lines 669-698): the chain after the
call, the result, and the calls issued through the caller. The source issues
none: the place of the fetch is a TODO (line 692). -/
def sync (clock : Nat → Int) (fuel : Nat) (c : Chain MS BI) :
    Option (Chain MS BI × Except Err Unit × List Call) :=
  match syncLoop clock fuel 0 c.rt with
  | none => none
  | some r => some ({ c with rt := r }, .ok (), [])

/-- The loop of `syncHead` over the servers of the peer list (lines 847-871):
asks each server other than the local node for the block of height `h` until one
answers without error and with a block. Returns the calls issued and the block
sent to `blocksFromRPC`, if any. -/
def fetchFromPeers (sv : Services MS) (nodeID : NodeID) (h : Nat) :
    List NodeID → List Call × Option BPBlock
  | [] => ([], none)
  | s :: rest =>
    if s ≠ nodeID then
      match sv.CallFetchBlock s h with
      | (none, some b) => ([Call.FetchBlock s h], some b)
      | _ =>
        let r := fetchFromPeers sv nodeID h rest
        (Call.FetchBlock s h :: r.1, r.2)
    else fetchFromPeers sv nodeID h rest

/-- Fetch of the block of the current turn (`Chain.syncHead`, lines 827-883):
the calls issued and the block sent to `blocksFromRPC`, if any. -/
def syncHead (sv : Services MS) (c : Chain MS BI) : List Call × Option BPBlock :=
  let h := u32Pred c.rt.getNextTurn
  if c.rt.getHead.Height < h then fetchFromPeers sv c.rt.nodeID h c.rt.peers
  else ([], none)

/-- The helper `returnStash` of `processBlocks` (lines 720-729): sends the blocks
of the stash to `blocksFromRPC` in order, until its context is done. The
argument `done` is the number of sends that complete before the context is done
(none: the context is never done). Returns the blocks sent. -/
def returnStash (done : Option Nat) (stash : List BPBlock) : List BPBlock :=
  match done with
  | none => stash
  | some k => stash.take k

/-- The loop of `processBlocks` on a sequence of received blocks. -/
def processBlocks (env : Env MS BI) (s : BlockLoop MS BI) (blocks : List BPBlock) :
    BlockLoop MS BI :=
  blocks.foldl (processBlock env) s

end Production

/-! ## The account address of the node and billing -/

section Billing

variable {MS : Type}

/-- The package-level variables of `chain.go` that functions assign: the
variable `accountAddress` (line 72). Its value before any assignment is the zero
address. -/
structure Package where
  accountAddress : AccountAddress
  deriving DecidableEq, Repr

/-- The package variables at program start. -/
def Package.initial : Package := { accountAddress := 0 }

/-- The key collaborators of `NewChain` and `LoadChain`. -/
structure Keys where
  /-- Local public key (`kms.GetLocalPublicKey()`). -/
  GetLocalPublicKey : Except String Bytes
  /-- Address of a public key (`crypto.PubKeyHash`): the address and the error
  it returns (none: nil). -/
  PubKeyHash : Bytes → AccountAddress × Option String

/-- The step "get accountAddress" of `NewChain` on a fresh data file (lines
104-112): the statement `accountAddress, err := crypto.PubKeyHash(pubKey)`
declares a local variable `accountAddress`, so the package variable keeps its
value. Returns the package variables after the step and the address handed to
`newRuntime` (line 176). -/
def NewChain_getAccountAddress (keys : Keys) (g : Package) : Package × Except Err AccountAddress :=
  match keys.GetLocalPublicKey with
  | .error e => (g, .error (.external e))
  | .ok pubKey =>
    match keys.PubKeyHash pubKey with
    | (_, some e) => (g, .error (.external e))
    | (accountAddress, none) => (g, .ok accountAddress)

/-- The step "get accountAddress" of `LoadChain` (lines 241-249): the statement
`accountAddress, err = crypto.PubKeyHash(pubKey)` assigns the package variable.
Returns the package variables after the step and the address handed to
`newRuntime` (line 272). -/
def LoadChain_getAccountAddress (keys : Keys) (g : Package) : Package × Except Err AccountAddress :=
  match keys.GetLocalPublicKey with
  | .error e => (g, .error (.external e))
  | .ok pubKey =>
    match keys.PubKeyHash pubKey with
    | (a, some e) => ({ g with accountAddress := a }, .error (.external e))
    | (a, none) => ({ g with accountAddress := a }, .ok a)

/-- The step "get accountAddress" of `NewChain` (lines 94-112): `LoadChain` when
the data file exists, the fresh path otherwise. -/
def getAccountAddress (keys : Keys) (dataFileExists : Bool) (g : Package) :
    Package × Except Err AccountAddress :=
  if dataFileExists then LoadChain_getAccountAddress keys g
  else NewChain_getAccountAddress keys g

/-- Billing request (`types.BillingRequest`): the gas amounts of its header, its
hash and the signatures it carries. -/
structure BillingRequest where
  GasAmounts : List (AccountAddress × Nat)
  RequestHash : Hash
  Signatures : List Bytes
  deriving DecidableEq, Repr

/-- The arguments of `types.NewBillingHeader(nc, br, producer, receivers, fees,
rewards)`. -/
structure BillingHeader where
  Nonce : Nat
  BillingRequest : BillingRequest
  Producer : AccountAddress
  Receivers : List AccountAddress
  Fees : List Nat
  Rewards : List Nat
  deriving DecidableEq, Repr

/-- Signed billing transaction (`types.NewBilling(tc)` after `Sign`). -/
structure Billing where
  Header : BillingHeader
  Signature : Bytes
  deriving DecidableEq, Repr

/-- The collaborators of `produceBilling`. -/
structure BillingServices (MS : Type) where
  /-- Error of `br.VerifySignatures()` (none: nil). -/
  VerifySignatures : BillingRequest → Option String
  /-- Local private key (`kms.GetLocalPrivateKey()`). -/
  GetLocalPrivateKey : Except String Bytes
  /-- The request after `br.SignRequestHeader(privKey, false)`. -/
  SignRequestHeader : Bytes → BillingRequest → Except String BillingRequest
  /-- Next nonce of an account (`metaState.nextNonce`). -/
  nextNonce : MS → AccountAddress → Except Err Nat
  /-- Signature of a billing transaction (`tb.Sign(privKey)`). -/
  Sign : Bytes → BillingHeader → Except String Bytes

/-- The constant `gasPrice` (line 71). -/
def gasPrice : Nat := 1

/-- What a call of `produceBilling` did: its result, the address it passed to
`nextNonce` (none: no lookup) and the transaction it sent to `pendingTxs` (none:
nothing sent). -/
structure BillingOutcome where
  result : Except Err BillingRequest
  nonceLookup : Option AccountAddress
  sent : Option Billing

/-- Production of a billing transaction (`Chain.produceBilling`, lines 542-594),
reading the package variable `accountAddress`. The receivers are the account
addresses of the gas amount entries, the entries being held by reference. -/
def produceBilling (bs : BillingServices MS) (g : Package) (ms : MS) (br : BillingRequest) :
    BillingOutcome :=
  match bs.VerifySignatures br with
  | some e => { result := .error (.external e), nonceLookup := none, sent := none }
  | none =>
    let receivers := br.GasAmounts.map (fun a => a.1)
    let fees := br.GasAmounts.map (fun a => a.2 * gasPrice % 2 ^ 64)
    let rewards := br.GasAmounts.map (fun _ => 0)
    match bs.GetLocalPrivateKey with
    | .error e => { result := .error (.external e), nonceLookup := none, sent := none }
    | .ok privKey =>
      match bs.SignRequestHeader privKey br with
      | .error e => { result := .error (.external e), nonceLookup := none, sent := none }
      | .ok br1 =>
        match bs.nextNonce ms g.accountAddress with
        | .error e => { result := .error e, nonceLookup := some g.accountAddress, sent := none }
        | .ok nc =>
          let tc : BillingHeader :=
            { Nonce := nc, BillingRequest := br1, Producer := g.accountAddress,
              Receivers := receivers, Fees := fees, Rewards := rewards }
          match bs.Sign privKey tc with
          | .error e =>
            { result := .error (.external e), nonceLookup := some g.accountAddress, sent := none }
          | .ok sig =>
            { result := .ok br1, nonceLookup := some g.accountAddress,
              sent := some { Header := tc, Signature := sig } }

end Billing

/-! ## Start-up from an existing data file -/

section Startup

variable {MS BI : Type}

/-- The first statement of `ddls` (lines 50-56). -/
def ddlBlocks : String :=
  "CREATE TABLE IF NOT EXIST \"blocks\" (\n\t\"height\"\tINT,\n\t\"hash\"\t\tTEXT,\n\t\"parent\"\tTEXT,\n\t\"encoded\"\tBLOB,\n\tPRIMARY KEY (\"height\", \"hash\")\n)"

/-- The second statement of `ddls` (lines 57-62). -/
def ddlTxPool : String :=
  "CREATE TABLE IF NOT EXIST \"txPool\" (\n\t\"type\"\t\tINT,\n\t\"hash\"\t\tTEXT,\n\t\"encoded\"\tBLOB,\n\tPRIMARY KEY (\"type\")\n)"

/-- The statements `ddls` (lines 49-63). -/
def ddls : List String := [ddlBlocks, ddlTxPool]

/-- The collaborators of `LoadChain` outside `chain.go`, besides the keys: the
data file, the SQL storage, the write-ahead log and the log runtime. -/
structure Startup where
  /-- The store of the data file (`bolt.Open(cfg.DataFile, 0600, nil)`), or the
  error. -/
  Open : Except String Store
  /-- Error of `xs.NewSqlite` (none: nil). -/
  NewSqlite : Option String
  /-- Error of `strg.Writer().Exec(ddl)` at a statement (none: nil). -/
  Exec : String → Option String
  /-- Error of `os.MkdirAll` (none: nil). -/
  MkdirAll : Option String
  /-- Error of `kl.NewLevelDBWal` (none: nil). -/
  NewLevelDBWal : Option String
  /-- Error of `kayak.NewRuntime` (none: nil). -/
  NewRuntime : Option String

/-- The constructors `LoadChain` calls for the parts of the chain (lines 270-272):
`newMetaState()`, `newBlockIndex()` and `newRuntime(ctx, cfg, accountAddress)`,
the last as a function of the account address. -/
structure Constructors (MS BI : Type) where
  newMetaState : MS
  newBlockIndex : BI
  newRuntime : AccountAddress → Runtime

/-- The loop `for _, ddl := range ddls` of `LoadChain` (lines 262-266): executes
the statements in order and returns the first error (none: all succeeded). -/
def execDDLs (st : Startup) : List String → Option String
  | [] => none
  | ddl :: rest =>
    match st.Exec ddl with
    | some e => some e
    | none => execDDLs st rest

/-- Rebuild of the chain from the data file (`LoadChain`, lines 234-377): the
package variables after the call, and the chain or the error returned. -/
def LoadChain (st : Startup) (keys : Keys) (mk : Constructors MS BI) (env : Env MS BI)
    (g : Package) : Package × Except Err (Chain MS BI) :=
  match st.Open with
  | .error e => (g, .error (.external e))
  | .ok db =>
    match LoadChain_getAccountAddress keys g with
    | (g1, .error e) => (g1, .error e)
    | (g1, .ok accountAddress) =>
      match st.NewSqlite with
      | some e => (g1, .error (.external e))
      | none =>
        match execDDLs st ddls with
        | some e => (g1, .error (.external e))
        | none =>
          let chain : Chain MS BI :=
            { db := db, ms := mk.newMetaState, bi := mk.newBlockIndex,
              rt := mk.newRuntime accountAddress, cl := 0 }
          match st.MkdirAll with
          | some e => (g1, .error (.external e))
          | none =>
            match st.NewLevelDBWal with
            | some e => (g1, .error (.external e))
            | none =>
              match st.NewRuntime with
              | some e => (g1, .error (.external e))
              | none => (g1, loadChainView env chain)

end Startup

end BlockProducer

/-! ## The RPC server (`rpc/server.go`, `rpc/server_test.go`) -/

namespace Rpc

/-- Byte strings (`[]byte`). -/
abbrev Bytes := List Nat

/-- The result of an addition of Go `int` values, 64 bits wide, two's
complement. -/
def wrapInt (x : Int) : Int := (x + 2 ^ 63) % 2 ^ 64 - 2 ^ 63

/-- The test service (`TestService`): a counter. -/
structure TestService where
  counter : Int
  deriving DecidableEq, Repr

/-- Request of `IncCounter` (`TestReq`). -/
structure TestReq where
  Step : Int
  deriving DecidableEq, Repr

/-- Reply of `IncCounter` (`TestRep`). -/
structure TestRep where
  Ret : Int
  deriving DecidableEq, Repr

/-- Constructor `NewTestService` (lines 46-50). -/
def NewTestService : TestService := { counter := 0 }

/-- Method `IncCounter` (lines 52-57): the service and the reply after the call,
and the error returned (none: nil). -/
def TestService.IncCounter (s : TestService) (req : TestReq) (_rep : TestRep) :
    TestService × TestRep × Option String :=
  let s1 : TestService := { counter := wrapInt (s.counter + req.Step) }
  (s1, { Ret := s1.counter }, none)

/-- Method `IncCounterSimpleArgs` (lines 59-64): the service and the reply after
the call, and the error returned (none: nil). -/
def TestService.IncCounterSimpleArgs (s : TestService) (step : Int) (_ret : Int) :
    TestService × Int × Option String :=
  let s1 : TestService := { counter := wrapInt (s.counter + step) }
  (s1, s1.counter, none)

/-- Service map (`ServiceMap`), here of test services: name and instance. -/
abbrev ServiceMap := List (String × TestService)

/-- The server (`Server`): the services registered with its `rpcServer`. -/
structure Server where
  services : List (String × TestService)
  deriving DecidableEq, Repr

/-- Constructor `NewServer` (lines 47-53): no service registered. -/
def NewServer : Server := { services := [] }

/-- Registration of a service under a name (`Server.RegisterService`, lines
177-179, that is `rpc.Server.RegisterName`): fails when the name is empty or
taken. -/
def Server.RegisterService (s : Server) (name : String) (service : TestService) :
    Except String Server :=
  if name = "" then .error "rpc.Register: no service name"
  else if s.services.any (fun p => p.1 == name) then .error "rpc: service already defined"
  else .ok { services := s.services ++ [(name, service)] }

/-- The loop of `NewServerWithService` (lines 86-92). -/
def registerAll : Server → List (String × TestService) → Except String Server
  | server, [] => .ok server
  | server, (k, v) :: rest =>
    match server.RegisterService k v with
    | .error e => .error e
    | .ok server1 => registerAll server1 rest

/-- Constructor `NewServerWithService` (lines 83-94). -/
def NewServerWithService (serviceMap : ServiceMap) : Except String Server :=
  registerAll NewServer serviceMap

/-- The methods of the test service by name. -/
inductive Method where
  | IncCounter
  | IncCounterSimpleArgs
  deriving DecidableEq, Repr

/-- Replaces the instance registered under a name. -/
def setService (name : String) (service : TestService) :
    List (String × TestService) → List (String × TestService)
  | [] => []
  | (k, v) :: rest =>
    if k == name then (k, service) :: rest else (k, v) :: setService name service rest

/-- A call `client.Call("name.method", step, reply)` served by the server: the
request is dispatched to the method of the instance registered under the name,
which keeps the state the method leaves. Returns the server after the call and
the reply, or the error of the call. -/
def Server.Call (s : Server) (name : String) (method : Method) (step : Int) :
    Server × Except String Int :=
  match s.services.lookup name with
  | none => (s, .error "rpc: can't find service")
  | some service =>
    match method with
    | .IncCounter =>
      match service.IncCounter { Step := step } { Ret := 0 } with
      | (service1, rep, none) => ({ services := setService name service1 s.services }, .ok rep.Ret)
      | (service1, _, some e) => ({ services := setService name service1 s.services }, .error e)
    | .IncCounterSimpleArgs =>
      match service.IncCounterSimpleArgs step 0 with
      | (service1, ret, none) => ({ services := setService name service1 s.services }, .ok ret)
      | (service1, _, some e) => ({ services := setService name service1 s.services }, .error e)

/-- A sequence of calls to the service registered under a name, one after the
other: the server after the calls and the results, in order. -/
def Server.Calls (name : String) : Server → List (Method × Int) → Server × List (Except String Int)
  | s, [] => (s, [])
  | s, (m, step) :: rest =>
    let r := s.Call name m step
    let rs := Server.Calls name r.1 rest
    (rs.1, r.2 :: rs.2)

/-- The outcome of `conn.Read(headerBuf)`: the count, the error (none: nil) and
the content of the buffer after the read. -/
structure HeaderRead where
  rCount : Nat
  err : Option String
  headerBuf : Bytes
  deriving DecidableEq, Repr

/-- The collaborators of `handleCipher`. -/
structure CipherEnv where
  /-- The constant `hash.HashBSize`. -/
  HashBSize : Nat
  /-- Public key of a node (`kms.GetPublicKey`), by the bytes of its identifier. -/
  GetPublicKey : Bytes → Except String Bytes
  /-- Local private key (`kms.GetLocalPrivateKey()`). -/
  GetLocalPrivateKey : Except String Bytes
  /-- Shared secret (`asymmetric.GenECDHSharedSecret`). -/
  GenECDHSharedSecret : Bytes → Bytes → Bytes

/-- Encrypted connection (`etls.CryptoConn`): the key of its cipher and the
identifier of the remote node. -/
structure CryptoConn where
  symmetricKey : Bytes
  NodeID : Bytes
  deriving DecidableEq, Repr

/-- Handshake of an incoming connection (`handleCipher`, lines 189-225): the
results `cryptoConn` (none: nil) and `err` (none: nil). -/
def handleCipher (env : CipherEnv) (read : HeaderRead) : Option CryptoConn × Option String :=
  if read.err ≠ none ∨ read.rCount ≠ env.HashBSize + 32 then
    (none, read.err)
  else
    let idHash := read.headerBuf.take env.HashBSize
    match env.GetPublicKey idHash with
    | .error e => (none, some e)
    | .ok publicKey =>
      match env.GetLocalPrivateKey with
      | .error e => (none, some e)
      | .ok privateKey =>
        let symmetricKey := env.GenECDHSharedSecret privateKey publicKey
        (some { symmetricKey := symmetricKey, NodeID := idHash }, none)

end Rpc

namespace BlockProducer

open Err

/-! ## A concrete environment

A small instance of the collaborators, used to evaluate the definitions at
concrete blocks. The state codec writes the exported fields `Head` and `Height`
of a state; the node of a decoded state is a zero node. -/

section Sample

/-- Genesis block of the sample chain: time stamp 0, no transactions. -/
def genesisBlock : BPBlock :=
  { SignedHeader :=
      { Header := { Version := 1, Producer := 7, ParentHash := 0, Timestamp := 0, MerkleRoot := 0 },
        BlockHash := 9, Signee := [7], Signature := [7] },
    Transactions := [] }

/-- A transfer of the sample chain. -/
def sampleTx : Transaction :=
  { TransactionType := 0, Nonce := 1, Sender := 7, Payload := [10], Signature := [7] }

/-- Block of height 1 on top of the genesis block, with one transaction. -/
def blockOne : BPBlock :=
  { SignedHeader :=
      { Header := { Version := 1, Producer := 7, ParentHash := 9, Timestamp := 10, MerkleRoot := 2 },
        BlockHash := 30, Signee := [7], Signature := [7] },
    Transactions := [sampleTx] }

/-- The block `blockOne` with its transaction list emptied and the Merkle root
of the header kept. -/
def tamperedBlock : BPBlock := { blockOne with Transactions := [] }

/-- The block `blockOne` with a signature that does not verify. -/
def forgedBlock : BPBlock :=
  { blockOne with SignedHeader := { blockOne.SignedHeader with Signature := [8] } }

/-- The blocks the sample codec knows, in code order. -/
def sampleBlocks : List BPBlock := [genesisBlock, blockOne, tamperedBlock, forgedBlock]

/-- The sample environment: additive hashes, a codec that numbers the blocks of
`sampleBlocks`, a state codec that carries `Head` and `Height`, a signature that
verifies when it equals the signee, a block index kept as a list with the latest
node first, node initialisation on reload that counts heights from the parent,
a meta state that records the applied transactions, and a store whose writes
and commits succeed. -/
def sampleEnv : Env (List Transaction) (List blockNode) where
  txHash := fun t => t.Nonce + 1
  merkleRoot := fun hs => hs.foldl (fun a h => 2 * a + h) 0
  MarshalHash := fun h =>
    .ok [h.Version, h.Producer, h.ParentHash, h.Timestamp.toNat, h.MerkleRoot]
  THashH := fun bs => bs.foldl (fun a x => a + x) 1
  Verify := fun sh => if sh.Signature = sh.Signee then .ok () else .error "invalid signature"
  encodeBlock := fun b =>
    if b ∈ sampleBlocks then .ok [sampleBlocks.indexOf b] else .error "unknown block"
  decodeBlock := fun bs =>
    match bs with
    | [i] => match sampleBlocks.get? i with
      | some b => .ok b
      | none => .error "unknown code"
    | _ => .error "malformed block"
  encodeState := fun s => .ok [s.Head, s.Height]
  decodeState := fun bs =>
    match bs with
    | [hd, ht] => .ok { Node := some (.root 0 0 0), Head := hd, Height := ht }
    | _ => .error "malformed state"
  indexKey := fun height hash => [height, hash]
  initBlockNode := fun b parent =>
    blockNode.make parent b.BlockHash
      (match parent with
       | none => 0
       | some p => p.height + 1)
      (match parent with
       | none => 0
       | some p => p.count + 1)
  addBlock := fun bi n => n :: bi
  lookupNode := fun bi h => bi.find? (fun n => n.hash = h)
  applyTransactionProcedure := fun t ms ent => (ms ++ [t], .ok ent)
  partialCommitProcedure := fun _ ms ent => (ms, .ok ent)
  reloadProcedure := fun ms _ => (ms, .ok ())
  putErr := fun _ _ => none
  commitErr := fun _ => none

/-- The sample environment on a full disk: every commit fails. -/
def fullDiskEnv : Env (List Transaction) (List blockNode) :=
  { sampleEnv with commitErr := fun _ => some "disk full" }

/-- A fresh chain: empty store, nil head node, period of 10 ns, one producer. -/
def freshChain : Chain (List Transaction) (List blockNode) :=
  { db := { state := none, blockIndex := [], entities := [] },
    ms := [],
    bi := [],
    rt := { chainInitTime := 0, period := 10, bpNum := 1, index := 0, nodeID := 0, peers := [0],
            accountAddress := 7, nextTurn := 1,
            head := { Node := none, Head := 0, Height := 0 } },
    cl := 0 }

/-- The sample chain after its genesis block was pushed. -/
def genesisChain : Chain (List Transaction) (List blockNode) :=
  (pushBlockWithoutCheck sampleEnv freshChain genesisBlock).1

/-- The sample chain after `blockOne` was accepted. -/
def chainOne : Chain (List Transaction) (List blockNode) :=
  (pushBlock sampleEnv genesisChain blockOne).1

/-- The answer of SQLite to a statement that starts with `CREATE TABLE IF NOT`:
the clause must read `IF NOT EXISTS`; `IF NOT EXIST` is a syntax error. Other
statements are taken to succeed. -/
def sqliteExec (stmt : String) : Option String :=
  if "CREATE TABLE IF NOT EXISTS ".toList.isPrefixOf stmt.toList then none
  else if "CREATE TABLE IF NOT ".toList.isPrefixOf stmt.toList then
    some "near \"EXIST\": syntax error"
  else none

/-- Start-up on the data file of `chainOne`, with SQLite as SQL storage; every
other step succeeds. -/
def sampleStartup : Startup where
  Open := .ok chainOne.db
  NewSqlite := none
  Exec := sqliteExec
  MkdirAll := none
  NewLevelDBWal := none
  NewRuntime := none

/-- The constructors of the sample chain: those of `freshChain`. -/
def sampleConstructors : Constructors (List Transaction) (List blockNode) where
  newMetaState := []
  newBlockIndex := []
  newRuntime := fun a => { freshChain.rt with accountAddress := a }

/-- The sample genesis chain of a node with index 0 among two block producers. -/
def twoProducerChain : Chain (List Transaction) (List blockNode) :=
  { genesisChain with rt := { genesisChain.rt with bpNum := 2, index := 0, peers := [0, 1] } }

/-- The loop of `processBlocks` on the sample genesis chain, whose next turn is 1,
with an empty stash. -/
def loopAtTurnOne : BlockLoop (List Transaction) (List blockNode) :=
  { chain := genesisChain, stash := [], returned := [], pushed := [] }

/-- The loop of `processBlocks` on the sample genesis chain with next turn 2 and
`forgedBlock` in the stash. -/
def loopAtTurnTwo : BlockLoop (List Transaction) (List blockNode) :=
  { chain := { genesisChain with rt := { genesisChain.rt with nextTurn := 2 } },
    stash := [forgedBlock], returned := [], pushed := [] }

/-- The sample genesis chain of a node with identifier 0 and peer list 0, 1, 2. -/
def threePeerChain : Chain (List Transaction) (List blockNode) :=
  { genesisChain with rt := { genesisChain.rt with peers := [0, 1, 2] } }

/-- Completion of a block in the sample environment: Merkle root and hash
computed with the functions of `sampleEnv`, key bytes as signee and signature. -/
def samplePack (priv : Bytes) (b : BPBlock) : BPBlock :=
  let header : BPHeader :=
    { b.SignedHeader.Header with MerkleRoot := sampleEnv.merkleRoot (b.GetTxHashes sampleEnv) }
  { SignedHeader :=
      { Header := header,
        BlockHash := sampleEnv.THashH
          [header.Version, header.Producer, header.ParentHash, header.Timestamp.toNat,
            header.MerkleRoot],
        Signee := priv, Signature := priv },
    Transactions := b.Transactions }

/-- The sample services: the pool holds `sampleTx`, `setNextTurn` adds one to the
next turn, peer 1 answers every call, peer 2 is unreachable. -/
def sampleServices : Services (List Transaction) where
  blockVersion := 1
  GetLocalPrivateKey := .ok [7]
  pullTxs := fun ms => (ms, [sampleTx])
  PackAndSignBlock := fun priv b => .ok (samplePack priv b)
  setNextTurn := fun r => { r with nextTurn := (r.nextTurn + 1) % 2 ^ 32 }
  CallAdviseNewBlock := fun id _ => if id = 1 then none else some "unreachable"
  CallFetchBlock := fun id h =>
    if id = 1 then (if h = 1 then (none, some blockOne) else (none, none))
    else (some "unreachable", none)

/-- The sample keys: the address of the local public key is 7. -/
def sampleKeys : Keys where
  GetLocalPublicKey := .ok [7]
  PubKeyHash := fun pk => (pk.foldl (fun a x => a + x) 0, none)

/-- The sample billing services: every step succeeds, the next nonce of an
account is its address plus one. -/
def sampleBilling : BillingServices (List Transaction) where
  VerifySignatures := fun _ => none
  GetLocalPrivateKey := .ok [7]
  SignRequestHeader := fun priv br => .ok { br with Signatures := br.Signatures ++ [priv] }
  nextNonce := fun _ a => .ok (a + 1)
  Sign := fun priv _ => .ok priv

/-- A billing request with one gas amount. -/
def sampleRequest : BillingRequest :=
  { GasAmounts := [(5, 3)], RequestHash := 11, Signatures := [] }

/-- The loop of `processBlocks` with next turn 0 and `forgedBlock` in the stash. -/
def loopAtTurnZero : BlockLoop (List Transaction) (List blockNode) :=
  { chain := { threePeerChain with rt := { threePeerChain.rt with nextTurn := 0 } },
    stash := [forgedBlock], returned := [], pushed := [] }

/-- Sample collaborators of `handleCipher`: identifiers of 4 bytes, every key
known. -/
def sampleCipherEnv : Rpc.CipherEnv where
  HashBSize := 4
  GetPublicKey := fun id => .ok id
  GetLocalPrivateKey := .ok [7]
  GenECDHSharedSecret := fun priv pub => priv ++ pub

/-- The calls of the test `TestIncCounter` (lines 84-101). -/
def sampleCalls : List (Rpc.Method × Int) :=
  [(Rpc.Method.IncCounter, 10), (Rpc.Method.IncCounter, 10), (Rpc.Method.IncCounterSimpleArgs, 10)]

/-- The sample genesis chain of a node with identifier 0 and a peer list that
names server 1 twice. -/
def doubledPeerChain : Chain (List Transaction) (List blockNode) :=
  { genesisChain with rt := { genesisChain.rt with peers := [0, 1, 1] } }

end Sample

/-! ## Validation -/

section Validation

variable {MS BI : Type}

/-- A failing `checkBlock` makes `pushBlock` return the wrapped error with the
chain untouched. -/
theorem pushBlock_of_checkBlock_error (env : Env MS BI) (c : Chain MS BI) (b : BPBlock) (e : Err)
    (h : checkBlock env c b = .error e) :
    pushBlock env c b = (c, .error (.wrap e "check block failed")) := by
  simp [pushBlock, h]

/-- A passing `checkBlock` makes `pushBlock` continue with `pushBlockWithoutCheck`. -/
theorem pushBlock_of_checkBlock_ok (env : Env MS BI) (c : Chain MS BI) (b : BPBlock)
    (h : checkBlock env c b = .ok ()) :
    pushBlock env c b = pushBlockWithoutCheck env c b := by
  simp [pushBlock, h]

/-- The first check of `checkBlock`: a parent hash other than the head hash. -/
theorem checkBlock_parent_mismatch (env : Env MS BI) (c : Chain MS BI) (b : BPBlock)
    (h : b.ParentHash ≠ c.rt.getHead.Head) :
    checkBlock env c b = .error ErrParentNotMatch := by
  simp [checkBlock, h]

/-- A block that passes all three checks of `checkBlock`. -/
theorem checkBlock_ok_of_consistent (env : Env MS BI) (c : Chain MS BI) (b : BPBlock) (enc : Bytes)
    (hparent : b.ParentHash = c.rt.getHead.Head)
    (hroot : b.SignedHeader.Header.MerkleRoot = env.merkleRoot (b.GetTxHashes env))
    (henc : env.MarshalHash b.SignedHeader.Header = .ok enc)
    (hhash : b.BlockHash = env.THashH enc) :
    checkBlock env c b = .ok () := by
  simp [checkBlock, hparent, ← hroot, henc, ← hhash]

/-- C1: for every block whose parent hash equals the current head hash but whose
header Merkle root differs from the root recomputed over its transaction hashes,
`checkBlock` returns `ErrInvalidMerkleTreeRoot`, and `pushBlock` fails and leaves
the runtime head, the block index and the store (indeed the whole chain) as they
were. -/
theorem pushBlock_invalid_merkle_root (env : Env MS BI) (c : Chain MS BI) (b : BPBlock)
    (hparent : b.ParentHash = c.rt.getHead.Head)
    (hroot : b.SignedHeader.Header.MerkleRoot ≠ env.merkleRoot (b.GetTxHashes env)) :
    checkBlock env c b = .error ErrInvalidMerkleTreeRoot ∧
    (∃ e, (pushBlock env c b).2 = .error e) ∧
    (pushBlock env c b).1.rt.getHead = c.rt.getHead ∧
    (pushBlock env c b).1.bi = c.bi ∧
    (pushBlock env c b).1.db = c.db ∧
    (pushBlock env c b).1 = c := by
  have hc : checkBlock env c b = .error ErrInvalidMerkleTreeRoot := by
    simp [checkBlock, hparent, hroot]
  have hp := pushBlock_of_checkBlock_error env c b _ hc
  refine ⟨hc, ⟨_, by rw [hp]⟩, ?_, ?_, ?_, ?_⟩ <;> rw [hp]

/-- Witness of C1: the block `tamperedBlock` (transaction list emptied, Merkle
root kept) on top of the sample genesis chain. -/
theorem pushBlock_invalid_merkle_root_witness :
    checkBlock sampleEnv genesisChain tamperedBlock = .error ErrInvalidMerkleTreeRoot ∧
    (∃ e, (pushBlock sampleEnv genesisChain tamperedBlock).2 = .error e) ∧
    (pushBlock sampleEnv genesisChain tamperedBlock).1.rt.getHead = genesisChain.rt.getHead ∧
    (pushBlock sampleEnv genesisChain tamperedBlock).1.bi = genesisChain.bi ∧
    (pushBlock sampleEnv genesisChain tamperedBlock).1.db = genesisChain.db ∧
    (pushBlock sampleEnv genesisChain tamperedBlock).1 = genesisChain :=
  pushBlock_invalid_merkle_root sampleEnv genesisChain tamperedBlock (by decide) (by decide)

end Validation

/-! ## Acceptance -/

section Acceptance

variable {MS BI : Type}

/-- Reading a key just written gives the written value. -/
theorem KV.get_insert (kv : KV) (k v : Bytes) : (kv.insert k v).get k = some v := by
  induction kv with
  | nil => simp [KV.insert, KV.get]
  | cons p rest ih =>
    obtain ⟨k1, v1⟩ := p
    by_cases h1 : k = k1
    · simp [KV.insert, KV.get, h1]
    · by_cases h2 : bytesLt k k1 = true
      · simp [KV.insert, KV.get, h1, h2]
      · simp [KV.insert, KV.get, h1, h2, ih]

/-- The loop over the transactions touches neither the block index, nor the
runtime, nor the state key, nor the block index bucket; when it succeeds, the
transactions were applied in order. -/
theorem applyTransactions_spec (env : Env MS BI) (vs : List Transaction) :
    ∀ (c c2 : Chain MS BI) (r : Except Err Unit), applyTransactions env vs c = (c2, r) →
      c2.bi = c.bi ∧ c2.rt = c.rt ∧ c2.db.state = c.db.state ∧
      c2.db.blockIndex = c.db.blockIndex ∧
      (r = .ok () → AppliedInOrder env vs (c.ms, c.db.entities) (c2.ms, c2.db.entities)) := by
  induction vs with
  | nil =>
    intro c c2 r h
    simp only [applyTransactions, Prod.mk.injEq] at h
    obtain ⟨rfl, rfl⟩ := h
    exact ⟨rfl, rfl, rfl, rfl, fun _ => AppliedInOrder.nil _⟩
  | cons v vs ih =>
    intro c c2 r h
    rw [applyTransactions] at h
    rcases hp : env.applyTransactionProcedure v c.ms c.db.entities with ⟨ms1, _ | ent1⟩
    · rw [hp] at h
      simp only [Prod.mk.injEq] at h
      obtain ⟨rfl, rfl⟩ := h
      exact ⟨rfl, rfl, rfl, rfl, fun hr => by cases hr⟩
    · rw [hp] at h
      obtain ⟨h1, h2, h3, h4, h5⟩ := ih _ _ _ h
      exact ⟨h1, h2, h3, h4, fun hr => AppliedInOrder.cons v vs _ _ ms1 ent1 hp (h5 hr)⟩

/-- The loop over the transactions leaves the caller as it was. -/
theorem applyTransactions_cl (env : Env MS BI) (vs : List Transaction) :
    ∀ (c c2 : Chain MS BI) (r : Except Err Unit), applyTransactions env vs c = (c2, r) →
      c2.cl = c.cl := by
  induction vs with
  | nil =>
    intro c c2 r h
    simp only [applyTransactions, Prod.mk.injEq] at h
    rw [← h.1]
  | cons v vs ih =>
    intro c c2 r h
    rw [applyTransactions] at h
    rcases hp : env.applyTransactionProcedure v c.ms c.db.entities with ⟨ms1, _ | ent1⟩
    · rw [hp] at h
      simp only [Prod.mk.injEq] at h
      rw [← h.1]
    · rw [hp] at h
      have h2 := ih _ _ _ h
      exact h2

/-- What a successful run of the batch function did. -/
theorem pushBlockBatch_ok (env : Env MS BI) (b : BPBlock) (node : blockNode) (state : State)
    (encBlock encState : Bytes) (c c1 : Chain MS BI)
    (h : pushBlockBatch env b node state encBlock encState c = (c1, .ok ())) :
    ∃ ms2 ent2 ms3 ent3,
      env.putErr (node.indexKey env) encBlock = none ∧
      AppliedInOrder env b.Transactions (c.ms, c.db.entities) (ms2, ent2) ∧
      env.partialCommitProcedure b.Transactions ms2 ent2 = (ms3, .ok ent3) ∧
      env.putErr metaStateKey encState = none ∧
      c1 = { db := { state := some encState,
                     blockIndex := c.db.blockIndex.insert (node.indexKey env) encBlock,
                     entities := ent3 },
             ms := ms3, bi := env.addBlock c.bi node, rt := c.rt.setHead state,
             cl := c.cl } := by
  unfold pushBlockBatch at h
  rcases hput : env.putErr (node.indexKey env) encBlock with _ | e
  · simp only [putBlockIndex, hput] at h
    rcases happ : applyTransactions env b.Transactions
        { c with db := { c.db with
          blockIndex := c.db.blockIndex.insert (node.indexKey env) encBlock } }
      with ⟨c2, _ | u⟩
    · simp [happ] at h
    · obtain ⟨hbi, hrt, hst, hblk, hord⟩ := applyTransactions_spec env _ _ _ _ happ
      simp only [happ] at h
      rcases hpc : env.partialCommitProcedure b.Transactions c2.ms c2.db.entities
        with ⟨ms3, _ | ent3⟩
      · simp [hpc] at h
      · simp only [hpc] at h
        rcases hps : env.putErr metaStateKey encState with _ | e
        · simp only [putState, hps, Prod.mk.injEq, and_true] at h
          have hcl := applyTransactions_cl env b.Transactions _ c2 _ happ
          refine ⟨c2.ms, c2.db.entities, ms3, ent3, rfl, hord rfl, hpc, rfl, ?_⟩
          rw [← h, hbi, hrt, hblk, hcl]
        · simp [putState, hps] at h
  · simp [putBlockIndex, hput] at h

/-- A failed run of the batch function leaves the block index and the runtime
as they were. -/
theorem pushBlockBatch_error (env : Env MS BI) (b : BPBlock) (node : blockNode) (state : State)
    (encBlock encState : Bytes) (c c1 : Chain MS BI) (e : Err)
    (h : pushBlockBatch env b node state encBlock encState c = (c1, .error e)) :
    c1.bi = c.bi ∧ c1.rt = c.rt := by
  unfold pushBlockBatch at h
  rcases hput : env.putErr (node.indexKey env) encBlock with _ | e1
  · simp only [putBlockIndex, hput] at h
    rcases happ : applyTransactions env b.Transactions
        { c with db := { c.db with
          blockIndex := c.db.blockIndex.insert (node.indexKey env) encBlock } }
      with ⟨c2, _ | u⟩
    · obtain ⟨hbi, hrt, -, -, -⟩ := applyTransactions_spec env _ _ _ _ happ
      simp only [happ, Prod.mk.injEq] at h
      obtain ⟨rfl, -⟩ := h
      exact ⟨hbi, hrt⟩
    · obtain ⟨hbi, hrt, -, -, -⟩ := applyTransactions_spec env _ _ _ _ happ
      simp only [happ] at h
      rcases hpc : env.partialCommitProcedure b.Transactions c2.ms c2.db.entities
        with ⟨ms3, _ | ent3⟩
      · simp only [hpc, Prod.mk.injEq] at h
        obtain ⟨rfl, -⟩ := h
        exact ⟨hbi, hrt⟩
      · simp only [hpc] at h
        rcases hps : env.putErr metaStateKey encState with _ | e2
        · simp [putState, hps] at h
        · simp only [putState, hps, Prod.mk.injEq] at h
          obtain ⟨rfl, -⟩ := h
          exact ⟨hbi, hrt⟩
  · simp only [putBlockIndex, hput, Prod.mk.injEq] at h
    obtain ⟨rfl, -⟩ := h
    exact ⟨rfl, rfl⟩

/-- A store transaction that succeeds ran its function with success and
committed what the function wrote. -/
theorem Update_ok (env : Env MS BI) (c c1 : Chain MS BI)
    (fn : Chain MS BI → Chain MS BI × Except Err Unit) (h : Update env c fn = (c1, .ok ())) :
    fn c = (c1, .ok ()) ∧ env.commitErr c1.db = none := by
  unfold Update at h
  rcases hf : fn c with ⟨c2, e | u⟩
  · simp [hf] at h
  · simp only [hf] at h
    rcases hc : env.commitErr c2.db with _ | e
    · simp only [hc, Prod.mk.injEq, and_true] at h
      subst h
      exact ⟨rfl, hc⟩
    · simp [hc] at h

/-- A store transaction never changes the store when it fails. -/
theorem Update_error_db (env : Env MS BI) (c c1 : Chain MS BI)
    (fn : Chain MS BI → Chain MS BI × Except Err Unit) (e : Err)
    (h : Update env c fn = (c1, .error e)) : c1.db = c.db := by
  unfold Update at h
  rcases hf : fn c with ⟨c2, e2 | u⟩
  · simp only [hf, Prod.mk.injEq] at h
    obtain ⟨rfl, -⟩ := h
    rfl
  · simp only [hf] at h
    rcases hc : env.commitErr c2.db with _ | e3
    · simp [hc] at h
    · simp only [hc, Prod.mk.injEq] at h
      obtain ⟨rfl, -⟩ := h
      rfl

/-- What a successful `pushBlockWithoutCheck` did. -/
theorem pushBlockWithoutCheck_ok (env : Env MS BI) (c c1 : Chain MS BI) (b : BPBlock)
    (h : pushBlockWithoutCheck env c b = (c1, .ok ())) :
    ∃ encBlock encState ms2 ent2 ms3 ent3,
      env.encodeBlock b = .ok encBlock ∧
      env.encodeState (pushState c b) = .ok encState ∧
      AppliedInOrder env b.Transactions (c.ms, c.db.entities) (ms2, ent2) ∧
      env.partialCommitProcedure b.Transactions ms2 ent2 = (ms3, .ok ent3) ∧
      c1 = { db := { state := some encState,
                     blockIndex := c.db.blockIndex.insert ((pushNode c b).indexKey env) encBlock,
                     entities := ent3 },
             ms := ms3, bi := env.addBlock c.bi (pushNode c b),
             rt := c.rt.setHead (pushState c b), cl := c.cl } := by
  unfold pushBlockWithoutCheck at h
  rcases heb : env.encodeBlock b with e | encBlock
  · simp [heb] at h
  · rcases hes : env.encodeState (pushState c b) with e | encState
    · simp [heb, hes] at h
    · simp only [heb, hes] at h
      obtain ⟨hfn, -⟩ := Update_ok env _ _ _ h
      obtain ⟨ms2, ent2, ms3, ent3, -, hord, hpc, -, hc1⟩ := pushBlockBatch_ok env _ _ _ _ _ _ _ hfn
      exact ⟨encBlock, encState, ms2, ent2, ms3, ent3, rfl, rfl, hord, hpc, hc1⟩

/-- The parent of the node created for a block is the node of the head. -/
theorem pushNode_parent (c : Chain MS BI) (b : BPBlock) :
    (pushNode c b).parent = c.rt.getHead.Node := by
  unfold pushNode newBlockNode blockNode.make
  cases c.rt.getHead.Node <;> rfl

/-- The hash of the node created for a block is the hash of the block. -/
theorem pushNode_hash (c : Chain MS BI) (b : BPBlock) : (pushNode c b).hash = b.BlockHash := by
  unfold pushNode newBlockNode blockNode.make
  cases c.rt.getHead.Node <;> rfl

/-- The head after a successful `pushBlock` is the state built from the new node. -/
theorem pushBlock_ok_head (env : Env MS BI) (c c1 : Chain MS BI) (b : BPBlock)
    (h : pushBlock env c b = (c1, .ok ())) : c1.rt.getHead = pushState c b := by
  unfold pushBlock at h
  rcases hc : checkBlock env c b with e | u
  · simp [hc] at h
  · simp only [hc] at h
    obtain ⟨_, _, _, _, _, _, -, -, -, -, rfl⟩ := pushBlockWithoutCheck_ok env c c1 b h
    rfl

/-- A block that passes `checkBlock` carries the hash of its marshalled header. -/
theorem checkBlock_ok_hash (env : Env MS BI) (c : Chain MS BI) (b : BPBlock)
    (h : checkBlock env c b = .ok ()) :
    ∃ enc, env.MarshalHash b.SignedHeader.Header = .ok enc ∧ b.BlockHash = env.THashH enc := by
  unfold checkBlock at h
  split at h
  · simp at h
  · simp only at h
    split at h
    · simp at h
    · split at h
      · simp at h
      · rename_i enc henc
        split at h
        · simp at h
        · rename_i hh
          exact ⟨enc, henc, by simpa using hh⟩

/-- C2: for every block `b` that `pushBlock` has accepted, the head hash is now
the hash of `b`, and a second `pushBlock(b)` fails at the parent check:
`checkBlock` returns `ErrParentNotMatch`, which `pushBlock` returns wrapped with
the message "check block failed" (the cause of the returned error is
`ErrParentNotMatch`), and the runtime head, the block index and the store
(indeed the whole chain) are left unchanged. The hash function is taken to have
no fixed point: the hash of a marshalled header is never the parent hash that
header holds. -/
theorem pushBlock_twice (env : Env MS BI) (c c1 : Chain MS BI) (b : BPBlock)
    (h : pushBlock env c b = (c1, .ok ()))
    (hfix : ∀ (header : BPHeader) (enc : Bytes), env.MarshalHash header = .ok enc →
      env.THashH enc ≠ header.ParentHash) :
    c1.rt.getHead.Head = b.BlockHash ∧
    checkBlock env c1 b = .error ErrParentNotMatch ∧
    (∃ e, (pushBlock env c1 b).2 = .error e ∧ e.cause = ErrParentNotMatch) ∧
    pushBlock env c1 b = (c1, .error (.wrap ErrParentNotMatch "check block failed")) ∧
    (pushBlock env c1 b).1.rt.getHead = c1.rt.getHead ∧
    (pushBlock env c1 b).1.bi = c1.bi ∧
    (pushBlock env c1 b).1.db = c1.db := by
  have hhead : c1.rt.getHead.Head = b.BlockHash := by
    rw [pushBlock_ok_head env c c1 b h]
    exact pushNode_hash c b
  have hcheck : checkBlock env c b = .ok () := by
    unfold pushBlock at h
    rcases hc : checkBlock env c b with e | u
    · simp [hc] at h
    · rfl
  obtain ⟨enc, henc, hhash⟩ := checkBlock_ok_hash env c b hcheck
  have hne : b.ParentHash ≠ b.BlockHash := by
    rw [hhash]
    exact fun h2 => hfix _ enc henc h2.symm
  have hc1 := checkBlock_parent_mismatch env c1 b (by rw [hhead]; exact hne)
  have hp := pushBlock_of_checkBlock_error env c1 b _ hc1
  refine ⟨hhead, hc1, ⟨.wrap ErrParentNotMatch "check block failed", by rw [hp], rfl⟩, hp,
    ?_, ?_, ?_⟩ <;> rw [hp]

/-- The hash of the sample environment exceeds every field of the header it is
computed from, so it has no fixed point. -/
theorem sampleEnv_hash_no_fixed_point (header : BPHeader) (enc : Bytes)
    (h : sampleEnv.MarshalHash header = .ok enc) : sampleEnv.THashH enc ≠ header.ParentHash := by
  have h2 : enc = [header.Version, header.Producer, header.ParentHash, header.Timestamp.toNat,
      header.MerkleRoot] := (Except.ok.inj h).symm
  subst h2
  intro h3
  have h4 : 1 + header.Version + (header.Producer : Nat) + (header.ParentHash : Nat) +
      header.Timestamp.toNat + (header.MerkleRoot : Nat) = (header.ParentHash : Nat) := h3
  omega

/-- Witness of C2: `blockOne` pushed twice on the sample chain. -/
theorem pushBlock_twice_witness :
    (pushBlock sampleEnv genesisChain blockOne).1.rt.getHead.Head = blockOne.BlockHash ∧
    checkBlock sampleEnv (pushBlock sampleEnv genesisChain blockOne).1 blockOne =
      .error ErrParentNotMatch ∧
    pushBlock sampleEnv (pushBlock sampleEnv genesisChain blockOne).1 blockOne =
      ((pushBlock sampleEnv genesisChain blockOne).1,
        .error (.wrap ErrParentNotMatch "check block failed")) :=
  have h := pushBlock_twice sampleEnv genesisChain (pushBlock sampleEnv genesisChain blockOne).1
    blockOne rfl sampleEnv_hash_no_fixed_point
  ⟨h.1, h.2.1, h.2.2.2.1⟩

/-- The store is unchanged whenever `pushBlockWithoutCheck` returns an error. -/
theorem pushBlockWithoutCheck_error_db (env : Env MS BI) (c c1 : Chain MS BI) (b : BPBlock)
    (e : Err) (h : pushBlockWithoutCheck env c b = (c1, .error e)) : c1.db = c.db := by
  unfold pushBlockWithoutCheck at h
  rcases heb : env.encodeBlock b with e1 | encBlock
  · simp only [heb, Prod.mk.injEq] at h
    rw [← h.1]
  · rcases hes : env.encodeState (pushState c b) with e1 | encState
    · simp only [heb, hes, Prod.mk.injEq] at h
      rw [← h.1]
    · simp only [heb, hes] at h
      exact Update_error_db env _ _ _ _ h

/-- When the function run inside the store transaction fails, the runtime and
the block index are as before the call of `pushBlockWithoutCheck`. -/
theorem pushBlockWithoutCheck_batch_error (env : Env MS BI) (c c2 : Chain MS BI) (b : BPBlock)
    (encBlock encState : Bytes) (e : Err)
    (heb : env.encodeBlock b = .ok encBlock)
    (hes : env.encodeState (pushState c b) = .ok encState)
    (hfn : pushBlockBatch env b (pushNode c b) (pushState c b) encBlock encState c =
      (c2, .error e)) :
    (pushBlockWithoutCheck env c b).2 = .error e ∧
    (pushBlockWithoutCheck env c b).1.rt = c.rt ∧
    (pushBlockWithoutCheck env c b).1.bi = c.bi ∧
    (pushBlockWithoutCheck env c b).1.db = c.db := by
  obtain ⟨hbi, hrt⟩ := pushBlockBatch_error env _ _ _ _ _ _ _ _ hfn
  simp [pushBlockWithoutCheck, heb, hes, Update, hfn, hbi, hrt]

/-- When the function run inside the store transaction succeeds and the commit
fails, `pushBlockWithoutCheck` returns the error of the commit and the store is
rolled back, but the runtime head is the new state and the new node is in the
block index. -/
theorem pushBlockWithoutCheck_commit_error (env : Env MS BI) (c c2 : Chain MS BI) (b : BPBlock)
    (encBlock encState : Bytes) (s : String)
    (heb : env.encodeBlock b = .ok encBlock)
    (hes : env.encodeState (pushState c b) = .ok encState)
    (hfn : pushBlockBatch env b (pushNode c b) (pushState c b) encBlock encState c =
      (c2, .ok ()))
    (hcommit : env.commitErr c2.db = some s) :
    (pushBlockWithoutCheck env c b).2 = .error (.external s) ∧
    (pushBlockWithoutCheck env c b).1.db = c.db ∧
    (pushBlockWithoutCheck env c b).1.rt.getHead = pushState c b ∧
    (pushBlockWithoutCheck env c b).1.bi = env.addBlock c.bi (pushNode c b) := by
  obtain ⟨_, _, _, _, -, -, -, -, hc2⟩ := pushBlockBatch_ok env _ _ _ _ _ _ _ hfn
  subst hc2
  simp [pushBlockWithoutCheck, heb, hes, Update, hfn, hcommit, Runtime.setHead, Runtime.getHead]

/-- C3, at the failing input: on a full disk (the commit of the store
transaction fails) `pushBlockWithoutCheck(blockOne)` on the sample chain returns
the error of the commit and leaves the store unchanged, but the runtime head has
advanced to the node of `blockOne` and the block index holds that node. -/
theorem pushBlockWithoutCheck_commit_failure_advances_head :
    (pushBlockWithoutCheck fullDiskEnv genesisChain blockOne).2 = .error (.external "disk full") ∧
    (pushBlockWithoutCheck fullDiskEnv genesisChain blockOne).1.db = genesisChain.db ∧
    genesisChain.rt.getHead = { Node := some (.root 9 0 0), Head := 9, Height := 0 } ∧
    (pushBlockWithoutCheck fullDiskEnv genesisChain blockOne).1.rt.getHead =
      { Node := some (.link (.root 9 0 0) 30 1 1), Head := 30, Height := 1 } ∧
    genesisChain.bi = [.root 9 0 0] ∧
    (pushBlockWithoutCheck fullDiskEnv genesisChain blockOne).1.bi =
      [.link (.root 9 0 0) 30 1 1, .root 9 0 0] := by
  refine ⟨by decide, by decide, by decide, by decide, by decide, by decide⟩

/-- C4: whenever `pushBlock(b)` succeeds, the encoded block body was written
under the index key of the new node (and is what the block index bucket holds
under that key afterwards), every transaction of `b` was applied in block order
and the list was then partially committed, the new runtime head is the state
with `Node` the new node, whose parent is the node of the previous head, `Head`
the hash of that node and `Height` its height, the value under the meta state key
is the encoding of that same state, and the new node was added to the block
index. -/
theorem pushBlock_success (env : Env MS BI) (c c1 : Chain MS BI) (b : BPBlock)
    (h : pushBlock env c b = (c1, .ok ())) :
    ∃ encBlock encState ms2 ent2 ms3 ent3,
      env.encodeBlock b = .ok encBlock ∧
      c1.db.blockIndex = c.db.blockIndex.insert ((pushNode c b).indexKey env) encBlock ∧
      c1.db.blockIndex.get ((pushNode c b).indexKey env) = some encBlock ∧
      AppliedInOrder env b.Transactions (c.ms, c.db.entities) (ms2, ent2) ∧
      env.partialCommitProcedure b.Transactions ms2 ent2 = (ms3, .ok ent3) ∧
      c1.ms = ms3 ∧ c1.db.entities = ent3 ∧
      c1.rt.getHead =
        { Node := some (pushNode c b), Head := (pushNode c b).hash,
          Height := (pushNode c b).height } ∧
      (pushNode c b).parent = c.rt.getHead.Node ∧
      env.encodeState c1.rt.getHead = .ok encState ∧
      c1.db.state = some encState ∧
      c1.bi = env.addBlock c.bi (pushNode c b) := by
  unfold pushBlock at h
  rcases hc : checkBlock env c b with e | u
  · simp [hc] at h
  · simp only [hc] at h
    obtain ⟨encBlock, encState, ms2, ent2, ms3, ent3, heb, hes, hord, hpc, rfl⟩ :=
      pushBlockWithoutCheck_ok env c c1 b h
    exact ⟨encBlock, encState, ms2, ent2, ms3, ent3, heb, rfl, KV.get_insert _ _ _, hord, hpc,
      rfl, rfl, rfl, pushNode_parent c b, hes, rfl, rfl⟩

/-- Witness of C4: `blockOne`, with one transaction, accepted on the sample
chain. -/
theorem pushBlock_success_witness :
    ∃ encBlock encState ms2 ent2 ms3 ent3,
      sampleEnv.encodeBlock blockOne = .ok encBlock ∧
      (pushBlock sampleEnv genesisChain blockOne).1.db.blockIndex =
        genesisChain.db.blockIndex.insert ((pushNode genesisChain blockOne).indexKey sampleEnv)
          encBlock ∧
      (pushBlock sampleEnv genesisChain blockOne).1.db.blockIndex.get
        ((pushNode genesisChain blockOne).indexKey sampleEnv) = some encBlock ∧
      AppliedInOrder sampleEnv blockOne.Transactions (genesisChain.ms, genesisChain.db.entities)
        (ms2, ent2) ∧
      sampleEnv.partialCommitProcedure blockOne.Transactions ms2 ent2 = (ms3, .ok ent3) ∧
      (pushBlock sampleEnv genesisChain blockOne).1.ms = ms3 ∧
      (pushBlock sampleEnv genesisChain blockOne).1.db.entities = ent3 ∧
      (pushBlock sampleEnv genesisChain blockOne).1.rt.getHead =
        { Node := some (pushNode genesisChain blockOne),
          Head := (pushNode genesisChain blockOne).hash,
          Height := (pushNode genesisChain blockOne).height } ∧
      (pushNode genesisChain blockOne).parent = genesisChain.rt.getHead.Node ∧
      sampleEnv.encodeState (pushBlock sampleEnv genesisChain blockOne).1.rt.getHead =
        .ok encState ∧
      (pushBlock sampleEnv genesisChain blockOne).1.db.state = some encState ∧
      (pushBlock sampleEnv genesisChain blockOne).1.bi =
        sampleEnv.addBlock genesisChain.bi (pushNode genesisChain blockOne) :=
  pushBlock_success sampleEnv genesisChain (pushBlock sampleEnv genesisChain blockOne).1
    blockOne rfl

/-- C5, as amended: when `checkBlock` fails with error `e`, `pushBlock` returns
`e` wrapped with the message "check block failed"; when `checkBlock` passes and
a step of the store batch fails with error `e` (writing the block body, applying
a transaction, the partial commit, writing the head state), `pushBlock` returns
exactly `e`, and when the commit of the store transaction fails, `pushBlock`
returns the error of the commit. -/
theorem pushBlock_error_propagation (env : Env MS BI) (c : Chain MS BI) (b : BPBlock) :
    (∀ e, checkBlock env c b = .error e →
      (pushBlock env c b).2 = .error (.wrap e "check block failed")) ∧
    (checkBlock env c b = .ok () →
      ∀ encBlock encState,
        env.encodeBlock b = .ok encBlock →
        env.encodeState (pushState c b) = .ok encState →
        (∀ e, putBlockIndex env c.db ((pushNode c b).indexKey env) encBlock = .error e →
          (pushBlock env c b).2 = .error e) ∧
        (∀ tx1, putBlockIndex env c.db ((pushNode c b).indexKey env) encBlock = .ok tx1 →
          (∀ c2 e, applyTransactions env b.Transactions { c with db := tx1 } = (c2, .error e) →
            (pushBlock env c b).2 = .error e) ∧
          (∀ c2, applyTransactions env b.Transactions { c with db := tx1 } = (c2, .ok ()) →
            (∀ ms3 e,
              env.partialCommitProcedure b.Transactions c2.ms c2.db.entities = (ms3, .error e) →
              (pushBlock env c b).2 = .error e) ∧
            (∀ ms3 ent3,
              env.partialCommitProcedure b.Transactions c2.ms c2.db.entities = (ms3, .ok ent3) →
              (∀ e, putState env { c2.db with entities := ent3 } encState = .error e →
                (pushBlock env c b).2 = .error e) ∧
              (∀ tx4 s, putState env { c2.db with entities := ent3 } encState = .ok tx4 →
                env.commitErr tx4 = some s →
                (pushBlock env c b).2 = .error (.external s)))))) := by
  refine ⟨fun e he => by rw [pushBlock_of_checkBlock_error env c b e he], ?_⟩
  intro hok encBlock encState heb hes
  rw [pushBlock_of_checkBlock_ok env c b hok]
  refine ⟨?_, ?_⟩
  · intro e h1
    simp [pushBlockWithoutCheck, heb, hes, Update, pushBlockBatch, h1]
  · intro tx1 h1
    refine ⟨?_, ?_⟩
    · intro c2 e h2
      simp [pushBlockWithoutCheck, heb, hes, Update, pushBlockBatch, h1, h2]
    · intro c2 h2
      refine ⟨?_, ?_⟩
      · intro ms3 e h3
        simp [pushBlockWithoutCheck, heb, hes, Update, pushBlockBatch, h1, h2, h3]
      · intro ms3 ent3 h3
        refine ⟨?_, ?_⟩
        · intro e h4
          simp [pushBlockWithoutCheck, heb, hes, Update, pushBlockBatch, h1, h2, h3, h4]
        · intro tx4 s h4 h5
          simp [pushBlockWithoutCheck, heb, hes, Update, pushBlockBatch, h1, h2, h3, h4, h5]

/-- Witness of C5 as amended: the block `tamperedBlock` fails `checkBlock` with
`ErrInvalidMerkleTreeRoot` on the sample chain and `pushBlock` returns that error
wrapped; on a full disk every step of the batch for `blockOne` succeeds, the
commit fails, and `pushBlock` returns the error of the commit. -/
theorem pushBlock_error_propagation_witness :
    (pushBlock sampleEnv genesisChain tamperedBlock).2 =
      .error (.wrap ErrInvalidMerkleTreeRoot "check block failed") ∧
    (pushBlock fullDiskEnv genesisChain blockOne).2 = .error (.external "disk full") :=
  ⟨(pushBlock_error_propagation sampleEnv genesisChain tamperedBlock).1
      ErrInvalidMerkleTreeRoot (by decide),
   ((((((pushBlock_error_propagation fullDiskEnv genesisChain blockOne).2 (by decide)
      [1] [30, 1] rfl rfl).2 _ rfl).2 _ rfl).2 _ _ rfl).2 _ "disk full" rfl rfl)⟩

/-- Counterexample to C5 as stated: `checkBlock` fails with
`ErrInvalidMerkleTreeRoot` on `tamperedBlock`, and `pushBlock` does not return
that error value but a wrapped one. -/
theorem pushBlock_error_propagation_counterexample :
    checkBlock sampleEnv genesisChain tamperedBlock = .error ErrInvalidMerkleTreeRoot ∧
    (pushBlock sampleEnv genesisChain tamperedBlock).2 ≠ .error ErrInvalidMerkleTreeRoot := by
  refine ⟨by decide, by decide⟩

end Acceptance

/-! ## Checks `checkBlock` does not make -/

section Unchecked

variable {MS BI : Type}

/-- C6, at the failing inputs: a block whose parent hash, Merkle root and block
hash are consistent passes `checkBlock` although its producer signature does not
verify; `pushBlock` goes on to write it. -/
theorem checkBlock_ignores_signature (env : Env MS BI) (c : Chain MS BI) (b : BPBlock)
    (enc : Bytes) (s : String)
    (hparent : b.ParentHash = c.rt.getHead.Head)
    (hroot : b.SignedHeader.Header.MerkleRoot = env.merkleRoot (b.GetTxHashes env))
    (henc : env.MarshalHash b.SignedHeader.Header = .ok enc)
    (hhash : b.BlockHash = env.THashH enc)
    (_hsig : env.Verify b.SignedHeader = .error s) :
    checkBlock env c b = .ok () ∧ pushBlock env c b = pushBlockWithoutCheck env c b := by
  have hc := checkBlock_ok_of_consistent env c b enc hparent hroot henc hhash
  exact ⟨hc, pushBlock_of_checkBlock_ok env c b hc⟩

/-- Witness of C6: the block `forgedBlock`, whose signature does not verify, is
accepted on the sample chain. -/
theorem checkBlock_ignores_signature_witness :
    sampleEnv.Verify forgedBlock.SignedHeader = .error "invalid signature" ∧
    checkBlock sampleEnv genesisChain forgedBlock = .ok () ∧
    (pushBlock sampleEnv genesisChain forgedBlock).2 = .ok () ∧
    (pushBlock sampleEnv genesisChain forgedBlock).1.rt.getHead.Head = forgedBlock.BlockHash :=
  ⟨by decide,
   (checkBlock_ignores_signature sampleEnv genesisChain forgedBlock [1, 7, 9, 10, 2]
      "invalid signature" (by decide) (by decide) (by decide) (by decide) (by decide)).1,
   by decide, by decide⟩

/-- C7, as amended: `checkBlock` makes no leader check. It never returns
`ErrNotLeader`, and a block whose parent hash, Merkle root and block hash are
consistent passes it, and is handed to `pushBlockWithoutCheck` by `pushBlock`,
whichever producer made it and whatever its height and the number of block
producers are. -/
theorem checkBlock_no_leader_check (env : Env MS BI) (c : Chain MS BI) (b : BPBlock) :
    checkBlock env c b ≠ .error ErrNotLeader ∧
    (∀ enc, b.ParentHash = c.rt.getHead.Head →
      b.SignedHeader.Header.MerkleRoot = env.merkleRoot (b.GetTxHashes env) →
      env.MarshalHash b.SignedHeader.Header = .ok enc →
      b.BlockHash = env.THashH enc →
      checkBlock env c b = .ok () ∧ pushBlock env c b = pushBlockWithoutCheck env c b) := by
  refine ⟨?_, ?_⟩
  · unfold checkBlock
    split
    · simp
    · simp only
      split
      · simp
      · split
        · simp
        · split <;> simp
  · intro enc hparent hroot henc hhash
    have hc := checkBlock_ok_of_consistent env c b enc hparent hroot henc hhash
    exact ⟨hc, pushBlock_of_checkBlock_ok env c b hc⟩

/-- Witness of C7 as amended: `blockOne` on the chain of two producers. -/
theorem checkBlock_no_leader_check_witness :
    checkBlock sampleEnv twoProducerChain blockOne ≠ .error ErrNotLeader ∧
    checkBlock sampleEnv twoProducerChain blockOne = .ok () :=
  ⟨(checkBlock_no_leader_check sampleEnv twoProducerChain blockOne).1,
   ((checkBlock_no_leader_check sampleEnv twoProducerChain blockOne).2 [1, 7, 9, 10, 2]
      (by decide) (by decide) (by decide) (by decide)).1⟩

/-- Counterexample to C7 as stated: with two block producers, the block `blockOne`
has height 1, whose leader is the producer of index 1; it was produced by the
local node, of index 0. It is not rejected with `ErrNotLeader`: `checkBlock`
passes and `pushBlock` accepts it as the new head. -/
theorem checkBlock_leader_counterexample :
    twoProducerChain.rt.bpNum = 2 ∧
    twoProducerChain.rt.getHeightFromTime blockOne.Timestamp = 1 ∧
    (pushNode twoProducerChain blockOne).height = 1 ∧
    leader twoProducerChain.rt.bpNum 1 = 1 ∧
    blockOne.Producer = twoProducerChain.rt.accountAddress ∧
    twoProducerChain.rt.index = 0 ∧
    checkBlock sampleEnv twoProducerChain blockOne = .ok () ∧
    (pushBlock sampleEnv twoProducerChain blockOne).2 = .ok () ∧
    (pushBlock sampleEnv twoProducerChain blockOne).1.rt.getHead.Head = blockOne.BlockHash := by
  refine ⟨by decide, by decide, by decide, by decide, by decide, by decide, by decide, by decide,
    by decide⟩

end Unchecked

/-! ## Lookup by height -/

section Lookup

variable {MS BI : Type}

/-- The ancestor of a node at the height of the node is the node. -/
theorem blockNode.ancestor_self (n : blockNode) : n.ancestor n.height = some n := by
  cases n <;> simp [blockNode.ancestor, blockNode.height]

/-- C9: for every height `h` and every chain with a head node,
`fetchBlockByHeight(h)` returns `ErrNoSuchBlock` exactly when the head node has
no ancestor at height `h`; otherwise it returns the decoding of the bytes stored
under the index key of that ancestor (its error when the bytes do not decode),
together with the count of that ancestor. After a successful
`pushBlockWithoutCheck(b)`, which creates a node at height `h`, and with a codec
that decodes the encoding of `b` to `b`, `fetchBlockByHeight(h)` returns `b` and
the count of the new node. -/
theorem fetchBlockByHeight_spec (env : Env MS BI) (c : Chain MS BI) :
    (∀ head h, c.rt.getHead.Node = some head →
      (fetchBlockByHeight env c h = some (.error ErrNoSuchBlock) ↔ head.ancestor h = none) ∧
      (∀ node, head.ancestor h = some node →
        fetchBlockByHeight env c h =
          some (match env.decodeBlock ((c.db.blockIndex.get (node.indexKey env)).getD []) with
                | .error e => .error (.external e)
                | .ok b => .ok (b, node.count)))) ∧
    (∀ b c1, pushBlockWithoutCheck env c b = (c1, .ok ()) →
      (∀ enc, env.encodeBlock b = .ok enc → env.decodeBlock enc = .ok b) →
      fetchBlockByHeight env c1 (pushNode c b).height = some (.ok (b, (pushNode c b).count))) := by
  refine ⟨?_, ?_⟩
  · intro head h hhead
    refine ⟨?_, ?_⟩
    · unfold fetchBlockByHeight
      simp only [hhead]
      cases ha : head.ancestor h with
      | none => simp
      | some node =>
        simp only
        cases env.decodeBlock ((c.db.blockIndex.get (node.indexKey env)).getD []) <;> simp
    · intro node ha
      unfold fetchBlockByHeight
      rw [hhead]
      simp only [ha]
      rcases env.decodeBlock ((c.db.blockIndex.get (node.indexKey env)).getD []) with e | b <;> rfl
  · intro b c1 hpush hcodec
    obtain ⟨encBlock, encState, ms2, ent2, ms3, ent3, heb, -, -, -, rfl⟩ :=
      pushBlockWithoutCheck_ok env c c1 b hpush
    simp [fetchBlockByHeight, Runtime.getHead, Runtime.setHead, pushState,
      blockNode.ancestor_self, KV.get_insert, hcodec encBlock heb]

/-- Witness of C9: on the sample chain after `blockOne`, the lookup at height 1
returns `blockOne` with count 1, and the lookup at height 2 returns
`ErrNoSuchBlock`. -/
theorem fetchBlockByHeight_spec_witness :
    fetchBlockByHeight sampleEnv (pushBlockWithoutCheck sampleEnv genesisChain blockOne).1 1 =
      some (.ok (blockOne, 1)) ∧
    (fetchBlockByHeight sampleEnv chainOne 2 = some (.error ErrNoSuchBlock) ↔
      (blockNode.link (.root 9 0 0) 30 1 1).ancestor 2 = none) ∧
    fetchBlockByHeight sampleEnv chainOne 2 = some (.error ErrNoSuchBlock) :=
  ⟨(fetchBlockByHeight_spec sampleEnv genesisChain).2 blockOne
      (pushBlockWithoutCheck sampleEnv genesisChain blockOne).1 rfl
      (fun enc henc => by
        have h1 : enc = [1] := by
          have h2 : sampleEnv.encodeBlock blockOne = .ok [1] := by decide
          rw [h2] at henc
          exact (Except.ok.inj henc).symm
        subst h1
        decide),
   ((fetchBlockByHeight_spec sampleEnv chainOne).1 (.link (.root 9 0 0) 30 1 1) 2
      (by decide)).1,
   by decide⟩

end Lookup

/-! ## The block processing loop -/

section LoopProperties

variable {MS BI : Type}

/-- For a next turn between 1 and `2^32 - 1`, the 32-bit value `n - 1` is the
number `n - 1`. -/
theorem u32Pred_eq (n : Nat) (h0 : 0 < n) (h1 : n < 2 ^ 32) : u32Pred n = n - 1 := by
  unfold u32Pred
  rw [Nat.mod_eq_of_lt h1]
  omega

/-- C10: for a block received by `processBlocks` with height `h` while the next
turn is `n`, where `n - 1` is the 32-bit value the source computes (the number
`n - 1` when `1 ≤ n < 2^32`): if `h > n - 1` the block is appended to the stash
and `pushBlock` is not called; if `h = n - 1` `pushBlock` is called on it, once,
and the block is not stashed; if `h < n - 1` the block is neither pushed nor
stashed and the chain, so the head, is unchanged. -/
theorem processBlock_cases (env : Env MS BI) (s : BlockLoop MS BI) (block : BPBlock) :
    (s.chain.rt.getHeightFromTime block.Timestamp > u32Pred s.chain.rt.getNextTurn →
      (processBlock env s block).stash = s.stash ++ [block] ∧
      (processBlock env s block).pushed = s.pushed ∧
      (processBlock env s block).chain = s.chain ∧
      (processBlock env s block).returned = s.returned) ∧
    (s.chain.rt.getHeightFromTime block.Timestamp = u32Pred s.chain.rt.getNextTurn →
      (processBlock env s block).pushed = s.pushed ++ [block] ∧
      (processBlock env s block).chain = (pushBlock env s.chain block).1 ∧
      (processBlock env s block).stash = []) ∧
    (s.chain.rt.getHeightFromTime block.Timestamp < u32Pred s.chain.rt.getNextTurn →
      (processBlock env s block).pushed = s.pushed ∧
      (processBlock env s block).stash = [] ∧
      (processBlock env s block).chain = s.chain ∧
      (processBlock env s block).chain.rt.getHead = s.chain.rt.getHead) ∧
    (0 < s.chain.rt.getNextTurn → s.chain.rt.getNextTurn < 2 ^ 32 →
      u32Pred s.chain.rt.getNextTurn = s.chain.rt.getNextTurn - 1) := by
  refine ⟨?_, ?_, ?_, u32Pred_eq _⟩
  · intro h
    simp [processBlock, h]
  · intro h
    have h1 : ¬ s.chain.rt.getHeightFromTime block.Timestamp > u32Pred s.chain.rt.getNextTurn := by
      omega
    have h2 : ¬ s.chain.rt.getHeightFromTime block.Timestamp < u32Pred s.chain.rt.getNextTurn := by
      omega
    unfold processBlock
    simp only [h1, h2, if_false]
    split
    · simp
    · rename_i hs
      simp only [ne_eq, not_not] at hs
      simp [hs]
  · intro h
    have h1 : ¬ s.chain.rt.getHeightFromTime block.Timestamp > u32Pred s.chain.rt.getNextTurn := by
      omega
    unfold processBlock
    simp only [h1, h, if_false, if_true]
    split
    · simp
    · rename_i hs
      simp only [ne_eq, not_not] at hs
      simp [hs]

/-- Witness of C10: with next turn 1 the block `blockOne` of height 1 is stashed;
with next turn 2 it is pushed and the stash is handed back; with next turn 2 the
genesis block, of height 0, is neither pushed nor stashed. -/
theorem processBlock_cases_witness :
    (processBlock sampleEnv loopAtTurnOne blockOne).stash = [blockOne] ∧
    (processBlock sampleEnv loopAtTurnOne blockOne).pushed = [] ∧
    (processBlock sampleEnv loopAtTurnTwo blockOne).pushed = [blockOne] ∧
    (processBlock sampleEnv loopAtTurnTwo genesisBlock).pushed = [] ∧
    (processBlock sampleEnv loopAtTurnTwo genesisBlock).stash = [] :=
  have h1 := (processBlock_cases sampleEnv loopAtTurnOne blockOne).1 (by decide)
  have h2 := (processBlock_cases sampleEnv loopAtTurnTwo blockOne).2.1 (by decide)
  have h3 := (processBlock_cases sampleEnv loopAtTurnTwo genesisBlock).2.2.1 (by decide)
  ⟨h1.1, h1.2.1, h2.1, h3.1, h3.2.1⟩

end LoopProperties

/-! ## Reload from the store -/

section ReloadProperties

variable {MS BI : Type}

/-- The head of a chain rebuilt by the read-only transaction of `LoadChain` is
the state decoded from the value under the meta state key, node reference
included: the nodes added to the block index afterwards are not linked to it. -/
theorem loadChainView_head (env : Env MS BI) (c0 c : Chain MS BI)
    (h : loadChainView env c0 = .ok c) :
    ∃ metaEnc state, c0.db.state = some metaEnc ∧ env.decodeState metaEnc = .ok state ∧
      c.rt.getHead = state ∧ c.db = c0.db := by
  unfold loadChainView at h
  rcases hs : c0.db.state with _ | metaEnc
  · simp [hs] at h
  · rcases hd : env.decodeState metaEnc with e | state
    · simp [hs, hd] at h
    · simp only [hs, hd] at h
      rcases hl : loadBlocks env c0.db.blockIndex none c0.bi with e | ⟨last, bi1⟩
      · simp [hl] at h
      · simp only [hl] at h
        rcases hr : env.reloadProcedure c0.ms c0.db with ⟨ms1, e | u⟩
        · simp [hr] at h
        · simp only [hr, Except.ok.injEq] at h
          subst h
          exact ⟨metaEnc, state, rfl, hd, rfl, rfl⟩

/-- The loop over `ddls` fails with the error of the first statement when that
statement is rejected. -/
theorem execDDLs_first (st : Startup) (e : String) (h : st.Exec ddlBlocks = some e) :
    execDDLs st ddls = some e := by
  simp [ddls, execDDLs, h]

/-- C8, at the failing inputs: the data file opens, the local key is found and
the SQL storage is created, and the storage rejects the first statement of
`ddls` with an error, as SQLite does for `CREATE TABLE IF NOT EXIST`. `LoadChain`
returns that error: no chain is rebuilt, so no head, no block index and no
lookup by height come back from the store, whatever the data file holds. -/
theorem LoadChain_ddl_error (st : Startup) (keys : Keys) (mk : Constructors MS BI)
    (env : Env MS BI) (g : Package) (db : Store) (pubKey : Bytes) (a : AccountAddress)
    (e : String)
    (hopen : st.Open = .ok db)
    (hkey : keys.GetLocalPublicKey = .ok pubKey)
    (hhash : keys.PubKeyHash pubKey = (a, none))
    (hsql : st.NewSqlite = none)
    (hexec : st.Exec ddlBlocks = some e) :
    (LoadChain st keys mk env g).2 = .error (.external e) ∧
    (∀ c, (LoadChain st keys mk env g).2 ≠ .ok c) := by
  have h : (LoadChain st keys mk env g).2 = .error (.external e) := by
    simp [LoadChain, hopen, LoadChain_getAccountAddress, hkey, hhash, hsql,
      execDDLs_first st e hexec]
  refine ⟨h, ?_⟩
  intro c hc
  rw [h] at hc
  cases hc

/-- Witness of C8: the data file written by pushing the genesis block and
`blockOne` holds the head state and both blocks; on restart SQLite rejects the
statement `CREATE TABLE IF NOT EXIST "blocks"` of `ddls` and `LoadChain` returns
its syntax error instead of the chain. -/
theorem LoadChain_ddl_error_witness :
    chainOne.db.state = some [30, 1] ∧
    chainOne.db.blockIndex = [([0, 9], [0]), ([1, 30], [1])] ∧
    sqliteExec ddlBlocks = some "near \"EXIST\": syntax error" ∧
    sqliteExec ddlTxPool = some "near \"EXIST\": syntax error" ∧
    (LoadChain sampleStartup sampleKeys sampleConstructors sampleEnv Package.initial).2 =
      .error (.external "near \"EXIST\": syntax error") :=
  ⟨by decide, by decide, by decide, by decide,
   (LoadChain_ddl_error sampleStartup sampleKeys sampleConstructors sampleEnv Package.initial
      chainOne.db [7] 7 "near \"EXIST\": syntax error" rfl rfl rfl rfl (by decide)).1⟩

/-- When every step before the read-only transaction succeeds, `LoadChain`
returns what the transaction returns on the opened store with new meta state,
new block index and new runtime. -/
theorem LoadChain_of_startup_ok (st : Startup) (keys : Keys) (mk : Constructors MS BI)
    (env : Env MS BI) (g : Package) (db : Store) (pubKey : Bytes) (a : AccountAddress)
    (hopen : st.Open = .ok db)
    (hkey : keys.GetLocalPublicKey = .ok pubKey)
    (hhash : keys.PubKeyHash pubKey = (a, none))
    (hsql : st.NewSqlite = none)
    (hexec : execDDLs st ddls = none)
    (hdir : st.MkdirAll = none) (hwal : st.NewLevelDBWal = none) (hrt : st.NewRuntime = none) :
    LoadChain st keys mk env g =
      ({ g with accountAddress := a },
        loadChainView env
          { db := db, ms := mk.newMetaState, bi := mk.newBlockIndex, rt := mk.newRuntime a,
            cl := 0 }) := by
  simp [LoadChain, hopen, LoadChain_getAccountAddress, hkey, hhash, hsql, hexec, hdir, hwal, hrt]

end ReloadProperties

/-! ## The stash of the block processing loop -/

section Stash

variable {MS BI : Type}

/-- The helper `returnStash` sends a prefix of the stash, in stash order. -/
theorem returnStash_prefix (done : Option Nat) (stash : List BPBlock) :
    returnStash done stash <+: stash := by
  cases done with
  | none => exact List.prefix_refl _
  | some k => exact List.take_prefix k stash

/-- One iteration of the loop keeps the blocks handed back so far followed by the
stash, and appends the received block when it is stashed. -/
theorem processBlock_conserves (env : Env MS BI) (s : BlockLoop MS BI) (block : BPBlock) :
    (processBlock env s block).returned.flatten ++ (processBlock env s block).stash =
      s.returned.flatten ++ s.stash ++
        (if s.chain.rt.getHeightFromTime block.Timestamp > u32Pred s.chain.rt.getNextTurn
         then [block] else []) := by
  by_cases h : s.chain.rt.getHeightFromTime block.Timestamp > u32Pred s.chain.rt.getNextTurn
  · simp [processBlock, h]
  · unfold processBlock
    simp only [h, if_false]
    by_cases hs : s.stash = []
    · split <;> simp [hs]
    · split <;> simp [hs]

/-- Over a whole run of the loop, the blocks handed back so far followed by the
stash only grow: no stashed block disappears. -/
theorem processBlocks_conserves (env : Env MS BI) (blocks : List BPBlock) :
    ∀ s : BlockLoop MS BI,
      s.returned.flatten ++ s.stash <+:
        (processBlocks env s blocks).returned.flatten ++ (processBlocks env s blocks).stash := by
  induction blocks with
  | nil =>
    intro s
    exact List.prefix_refl _
  | cons b rest ih =>
    intro s
    have h1 := ih (processBlock env s b)
    have h2 : s.returned.flatten ++ s.stash <+:
        (processBlock env s b).returned.flatten ++ (processBlock env s b).stash := by
      rw [processBlock_conserves]
      exact List.prefix_append _ _
    exact List.IsPrefix.trans h2 h1

/-- C11, as amended: a block received with a height above `n - 1` is appended
to the stash, and nothing is handed back. The stash is handed to one
`returnStash` helper, whole and in stash order, and becomes empty, as soon as a
block with a height of at most `n - 1` is received, whether that block is pushed
and accepted, pushed and rejected, or older and ignored. So the blocks handed
back so far followed by the stash only grow, by the stashed block, in one
iteration and over any run of the loop. The helper
sends the blocks it was handed in that order, each once, to `blocksFromRPC`: all
of them when its context is never done, a prefix otherwise. -/
theorem processBlock_stash (env : Env MS BI) (s : BlockLoop MS BI) (block : BPBlock) :
    (s.chain.rt.getHeightFromTime block.Timestamp > u32Pred s.chain.rt.getNextTurn →
      (processBlock env s block).stash = s.stash ++ [block] ∧
      (processBlock env s block).returned = s.returned) ∧
    (s.chain.rt.getHeightFromTime block.Timestamp ≤ u32Pred s.chain.rt.getNextTurn →
      (processBlock env s block).stash = [] ∧
      (s.stash ≠ [] → (processBlock env s block).returned = s.returned ++ [s.stash]) ∧
      (s.stash = [] → (processBlock env s block).returned = s.returned)) ∧
    (processBlock env s block).returned.flatten ++ (processBlock env s block).stash =
      s.returned.flatten ++ s.stash ++
        (if s.chain.rt.getHeightFromTime block.Timestamp > u32Pred s.chain.rt.getNextTurn
         then [block] else []) ∧
    (∀ blocks, s.returned.flatten ++ s.stash <+:
      (processBlocks env s blocks).returned.flatten ++ (processBlocks env s blocks).stash) ∧
    (∀ stash, returnStash none stash = stash) ∧
    (∀ done stash, returnStash done stash <+: stash) := by
  have hle : s.chain.rt.getHeightFromTime block.Timestamp ≤ u32Pred s.chain.rt.getNextTurn →
      (processBlock env s block).stash = [] ∧
      (s.stash ≠ [] → (processBlock env s block).returned = s.returned ++ [s.stash]) ∧
      (s.stash = [] → (processBlock env s block).returned = s.returned) := by
    intro h
    have h1 : ¬ s.chain.rt.getHeightFromTime block.Timestamp > u32Pred s.chain.rt.getNextTurn := by
      omega
    unfold processBlock
    simp only [h1, if_false]
    by_cases hs : s.stash = []
    · split <;> simp [hs]
    · split <;> simp [hs]
  refine ⟨?_, hle, processBlock_conserves env s block,
    fun blocks => processBlocks_conserves env blocks s, fun _ => rfl, returnStash_prefix⟩
  intro h
  simp [processBlock, h]

/-- Witness of C11 as amended: with next turn 1, `blockOne` of height 1 is
stashed; with next turn 2 and `forgedBlock` in the stash, the stash is handed
back when `blockOne` arrives. -/
theorem processBlock_stash_witness :
    (processBlock sampleEnv loopAtTurnOne blockOne).stash = [blockOne] ∧
    (processBlock sampleEnv loopAtTurnTwo blockOne).stash = [] ∧
    (processBlock sampleEnv loopAtTurnTwo blockOne).returned = [[forgedBlock]] :=
  have h1 := (processBlock_stash sampleEnv loopAtTurnOne blockOne).1 (by decide)
  have h2 := (processBlock_stash sampleEnv loopAtTurnTwo blockOne).2.1 (by decide)
  ⟨h1.1, h2.1, h2.2.1 (by decide)⟩

/-- Counterexample to C11 as stated, with next turn 2 and `forgedBlock` in the
stash. The genesis block, of height 0, arrives: `pushBlock` is not called and the
head stays, yet the stash is emptied. The block `tamperedBlock`, of height 1,
arrives: `pushBlock` rejects it and the head stays, yet the stash is emptied. And
a helper whose context is done before its first send sends none of the blocks it
was handed. -/
theorem processBlock_stash_counterexample :
    loopAtTurnTwo.stash = [forgedBlock] ∧
    u32Pred loopAtTurnTwo.chain.rt.getNextTurn = 1 ∧
    loopAtTurnTwo.chain.rt.getHeightFromTime genesisBlock.Timestamp = 0 ∧
    (processBlock sampleEnv loopAtTurnTwo genesisBlock).pushed = [] ∧
    (processBlock sampleEnv loopAtTurnTwo genesisBlock).chain.rt.getHead =
      loopAtTurnTwo.chain.rt.getHead ∧
    (processBlock sampleEnv loopAtTurnTwo genesisBlock).stash = [] ∧
    loopAtTurnTwo.chain.rt.getHeightFromTime tamperedBlock.Timestamp = 1 ∧
    (pushBlock sampleEnv loopAtTurnTwo.chain tamperedBlock).2 =
      .error (.wrap ErrInvalidMerkleTreeRoot "check block failed") ∧
    (processBlock sampleEnv loopAtTurnTwo tamperedBlock).chain.rt.getHead =
      loopAtTurnTwo.chain.rt.getHead ∧
    (processBlock sampleEnv loopAtTurnTwo tamperedBlock).stash = [] ∧
    returnStash (some 0) [forgedBlock] = [] := by
  refine ⟨by decide, by decide, by decide, by decide, by decide, by decide, by decide, by decide,
    by decide, by decide, by decide⟩

end Stash

/-- C16: provided the header marshals without error, `checkBlock(b)` returns nil
if and only if the parent hash of `b` equals the head hash, the Merkle root of
its header equals the root recomputed over its transaction hashes, and its block
hash equals the hash of the marshalled header; when it fails, the error is that
of the first failing check in the order parent (`ErrParentNotMatch`), Merkle root
(`ErrInvalidMerkleTreeRoot`), hash (`ErrInvalidHash`). `checkBlock` only reads
the chain: when it fails, `pushBlock` returns the chain as it was. -/
theorem checkBlock_iff {MS BI : Type} (env : Env MS BI) (c : Chain MS BI) (b : BPBlock)
    (enc : Bytes) (henc : env.MarshalHash b.SignedHeader.Header = .ok enc) :
    (checkBlock env c b = .ok () ↔
      b.ParentHash = c.rt.getHead.Head ∧
      b.SignedHeader.Header.MerkleRoot = env.merkleRoot (b.GetTxHashes env) ∧
      b.BlockHash = env.THashH enc) ∧
    (b.ParentHash ≠ c.rt.getHead.Head → checkBlock env c b = .error ErrParentNotMatch) ∧
    (b.ParentHash = c.rt.getHead.Head →
      b.SignedHeader.Header.MerkleRoot ≠ env.merkleRoot (b.GetTxHashes env) →
      checkBlock env c b = .error ErrInvalidMerkleTreeRoot) ∧
    (b.ParentHash = c.rt.getHead.Head →
      b.SignedHeader.Header.MerkleRoot = env.merkleRoot (b.GetTxHashes env) →
      b.BlockHash ≠ env.THashH enc →
      checkBlock env c b = .error ErrInvalidHash) ∧
    (∀ e, checkBlock env c b = .error e → (pushBlock env c b).1 = c) := by
  refine ⟨?_, ?_, ?_, ?_, ?_⟩
  · by_cases h1 : b.ParentHash = c.rt.getHead.Head
    · by_cases h2 : b.SignedHeader.Header.MerkleRoot = env.merkleRoot (b.GetTxHashes env)
      · by_cases h3 : b.BlockHash = env.THashH enc
        · simp [checkBlock, h1, ← h2, henc, ← h3]
        · simp [checkBlock, h1, ← h2, henc, h3]
      · simp [checkBlock, h1, h2]
    · simp [checkBlock, h1]
  · intro h1
    simp [checkBlock, h1]
  · intro h1 h2
    simp [checkBlock, h1, h2]
  · intro h1 h2 h3
    simp [checkBlock, h1, ← h2, henc, h3]
  · intro e he
    rw [pushBlock_of_checkBlock_error env c b e he]

/-- Witness of C16: `blockOne` passes `checkBlock` on the sample genesis chain,
and `tamperedBlock` fails its second check. -/
theorem checkBlock_iff_witness :
    checkBlock sampleEnv genesisChain blockOne = .ok () ∧
    checkBlock sampleEnv genesisChain tamperedBlock = .error ErrInvalidMerkleTreeRoot :=
  ⟨(checkBlock_iff sampleEnv genesisChain blockOne [1, 7, 9, 10, 2] (by decide)).1.2
      ⟨by decide, by decide, by decide⟩,
   (checkBlock_iff sampleEnv genesisChain tamperedBlock [1, 7, 9, 10, 2] (by decide)).2.2.1
      (by decide) (by decide)⟩

/-! ## Synchronisation -/

section Sync

variable {MS BI : Type}

/-- The inner loop of `sync` ends, with the next turn one past the height, when
the height is below `2^32 - 1` and the fuel covers the distance. -/
theorem syncAdvance_spec (height : Nat) (hH : height < 2 ^ 32 - 1) :
    ∀ (d fuel nextTurn : Nat), nextTurn ≤ height + 1 → height + 1 - nextTurn = d → d + 1 ≤ fuel →
      syncAdvance fuel height nextTurn = some (height + 1) := by
  intro d
  induction d with
  | zero =>
    intro fuel nextTurn h1 h2 h3
    obtain ⟨f, rfl⟩ : ∃ f, fuel = f + 1 := ⟨fuel - 1, by omega⟩
    have h4 : ¬ nextTurn ≤ height := by omega
    have h5 : nextTurn = height + 1 := by omega
    simp [syncAdvance, h4, h5]
  | succ d ih =>
    intro fuel nextTurn h1 h2 h3
    obtain ⟨f, rfl⟩ : ∃ f, fuel = f + 1 := ⟨fuel - 1, by omega⟩
    have h4 : nextTurn ≤ height := by omega
    have h5 : (nextTurn + 1) % 2 ^ 32 = nextTurn + 1 := Nat.mod_eq_of_lt (by omega)
    simp only [syncAdvance, h4, if_true, h5]
    exact ih f (nextTurn + 1) (by omega) (by omega) (by omega)

/-- C17: for every fixed clock reading whose height `H` is below `2^32 - 1` and
every initial next turn `n`, `sync` terminates (every fuel of at least `H + 3`
is enough), returns nil, issues no call and leaves the chain as it was but for
the next turn, so head, block index and store are unchanged; afterwards the next
turn is `H + 1` if `n < H`, and still `n` if `n ≥ H`. -/
theorem sync_fixed_clock (c : Chain MS BI) (t : Int)
    (hH : c.rt.getHeightFromTime t < 2 ^ 32 - 1) :
    ∀ fuel, c.rt.getHeightFromTime t + 3 ≤ fuel →
      sync (fun _ => t) fuel c =
        some ({ c with rt := { c.rt with
                  nextTurn := if c.rt.nextTurn < c.rt.getHeightFromTime t
                    then c.rt.getHeightFromTime t + 1 else c.rt.nextTurn } },
              .ok (), []) := by
  intro fuel hfuel
  obtain ⟨f, rfl⟩ : ∃ f, fuel = f + 2 := ⟨fuel - 2, by omega⟩
  by_cases hn : c.rt.nextTurn < c.rt.getHeightFromTime t
  · have h1 : ¬ c.rt.nextTurn ≥ c.rt.getHeightFromTime t := by omega
    have h2 := syncAdvance_spec (c.rt.getHeightFromTime t) hH
      (c.rt.getHeightFromTime t + 1 - c.rt.nextTurn) (f + 1 + 1) c.rt.nextTurn (by omega) rfl
      (by omega)
    have h3 : ({ c.rt with nextTurn := c.rt.getHeightFromTime t + 1 } : Runtime).getHeightFromTime t
        = c.rt.getHeightFromTime t := rfl
    simp only [sync, syncLoop, h1, if_false, h2, h3, hn, if_true]
    simp
  · have h1 : c.rt.nextTurn ≥ c.rt.getHeightFromTime t := by omega
    simp [sync, syncLoop, h1, hn]

/-- Witness of C17: the sample genesis chain, with next turn 1, and a clock
standing at time 100, of height 10. -/
theorem sync_fixed_clock_witness :
    ∃ c, sync (fun _ => 100) 13 genesisChain = some (c, .ok (), []) ∧
      c.rt.nextTurn = 11 ∧ c.rt.getHead = genesisChain.rt.getHead ∧
      c.bi = genesisChain.bi ∧ c.db = genesisChain.db :=
  ⟨_, sync_fixed_clock genesisChain 100 (by decide) 13 (by decide), by decide, by decide,
    by decide, by decide⟩

/-- C12, at the failing input: the local head is the genesis block, the next
turn is 1 and the clock stands at time 25, of height 2, so height 1 is missing;
peer 1 answers a fetch of height 1 with `blockOne`, which passes `checkBlock` on
the local chain. `sync` returns nil without issuing any call: the head is still
the genesis block, of height 0, and the next turn is 3. -/
theorem sync_fetches_nothing :
    genesisChain.rt.nextTurn = 1 ∧
    genesisChain.rt.getHeightFromTime 25 = 2 ∧
    sampleServices.CallFetchBlock 1 1 = (none, some blockOne) ∧
    checkBlock sampleEnv genesisChain blockOne = .ok () ∧
    (pushBlock sampleEnv genesisChain blockOne).1.rt.getHead.Height = 1 ∧
    ∃ c, sync (fun _ => 25) 10 genesisChain = some (c, .ok (), []) ∧
      c.rt.getHead = genesisChain.rt.getHead ∧
      c.rt.getHead.Height = 0 ∧
      c.rt.nextTurn = 3 :=
  ⟨by decide, by decide, by decide, by decide, by decide, _, rfl, by decide, by decide,
    by decide⟩

/-- Every call of the loop of `syncHead` is a fetch of the given height from a
server of the peer list other than the local node. -/
theorem fetchFromPeers_calls (sv : Services MS) (nodeID : NodeID) (h : Nat) :
    ∀ (peers : List NodeID) (call : Call), call ∈ (fetchFromPeers sv nodeID h peers).1 →
      ∃ s, s ∈ peers ∧ s ≠ nodeID ∧ call = Call.FetchBlock s h := by
  intro peers
  induction peers with
  | nil =>
    intro call hc
    simp [fetchFromPeers] at hc
  | cons s rest ih =>
    intro call hc
    unfold fetchFromPeers at hc
    by_cases hs : s ≠ nodeID
    · rw [if_pos hs] at hc
      split at hc
      · have hc1 : call = Call.FetchBlock s h := by simpa using hc
        exact ⟨s, List.mem_cons_self _ _, hs, hc1⟩
      · have hc1 : call = Call.FetchBlock s h ∨ call ∈ (fetchFromPeers sv nodeID h rest).1 := by
          simpa using hc
        rcases hc1 with hc1 | hc1
        · exact ⟨s, List.mem_cons_self _ _, hs, hc1⟩
        · obtain ⟨s1, h1, h2, h3⟩ := ih call hc1
          exact ⟨s1, List.mem_cons_of_mem _ h1, h2, h3⟩
    · rw [if_neg hs] at hc
      obtain ⟨s1, h1, h2, h3⟩ := ih call hc
      exact ⟨s1, List.mem_cons_of_mem _ h1, h2, h3⟩

/-- The loop of `syncHead` issues a call as soon as the peer list holds a server
other than the local node. -/
theorem fetchFromPeers_ne_nil (sv : Services MS) (nodeID : NodeID) (h : Nat) :
    ∀ (peers : List NodeID), (∃ s, s ∈ peers ∧ s ≠ nodeID) →
      (fetchFromPeers sv nodeID h peers).1 ≠ [] := by
  intro peers
  induction peers with
  | nil =>
    rintro ⟨s, hs, -⟩
    simp at hs
  | cons s rest ih =>
    rintro ⟨s1, hs1, hne⟩
    unfold fetchFromPeers
    by_cases hs : s ≠ nodeID
    · rw [if_pos hs]
      split <;> simp
    · rw [if_neg hs]
      simp only [ne_eq, not_not] at hs
      refine ih ⟨s1, ?_, hne⟩
      rcases List.mem_cons.1 hs1 with h1 | h1
      · exact absurd (h1.trans hs) hne
      · exact h1

/-- A block older than the current turn is neither pushed nor stashed, and the
chain stays as it was. -/
theorem processBlock_older (env : Env MS BI) (s : BlockLoop MS BI) (block : BPBlock)
    (h : s.chain.rt.getHeightFromTime block.Timestamp < u32Pred s.chain.rt.getNextTurn) :
    (processBlock env s block).pushed = s.pushed ∧
    (processBlock env s block).stash = [] ∧
    (processBlock env s block).chain = s.chain := by
  have h1 : ¬ s.chain.rt.getHeightFromTime block.Timestamp > u32Pred s.chain.rt.getNextTurn := by
    omega
  unfold processBlock
  simp only [h1, h, if_false, if_true]
  by_cases hs : s.stash = []
  · simp [hs]
  · simp [hs]

/-- C19: when the next turn is 0, the 32-bit value `nextTurn - 1` is `2^32 - 1`.
The loop of `processBlocks` then neither pushes nor stashes an incoming block of
height below `2^32 - 1`, and leaves the chain as it was. And `syncHead`, for a
head of height below `2^32 - 1`, runs its fetch loop for height `2^32 - 1`: every
call it issues is a fetch of that height from a server of the peer list other
than the local node, and it issues one as soon as there is such a server. -/
theorem nextTurn_zero_wraps (sv : Services MS) (env : Env MS BI) :
    u32Pred 0 = 2 ^ 32 - 1 ∧
    (∀ (s : BlockLoop MS BI) (block : BPBlock), s.chain.rt.getNextTurn = 0 →
      s.chain.rt.getHeightFromTime block.Timestamp < 2 ^ 32 - 1 →
      (processBlock env s block).pushed = s.pushed ∧
      (processBlock env s block).stash = [] ∧
      (processBlock env s block).chain = s.chain) ∧
    (∀ (c : Chain MS BI), c.rt.getNextTurn = 0 → c.rt.getHead.Height < 2 ^ 32 - 1 →
      syncHead sv c = fetchFromPeers sv c.rt.nodeID (2 ^ 32 - 1) c.rt.peers ∧
      (∀ call, call ∈ (syncHead sv c).1 →
        ∃ p, p ∈ c.rt.peers ∧ p ≠ c.rt.nodeID ∧ call = Call.FetchBlock p (2 ^ 32 - 1)) ∧
      ((∃ p, p ∈ c.rt.peers ∧ p ≠ c.rt.nodeID) → (syncHead sv c).1 ≠ [])) := by
  have h0 : u32Pred 0 = 2 ^ 32 - 1 := by decide
  refine ⟨h0, ?_, ?_⟩
  · intro s block hn hh
    exact processBlock_older env s block (by rw [hn, h0]; exact hh)
  · intro c hn hh
    have h1 : syncHead sv c = fetchFromPeers sv c.rt.nodeID (2 ^ 32 - 1) c.rt.peers := by
      unfold syncHead
      simp only [hn, h0, hh, if_true]
    refine ⟨h1, ?_, ?_⟩
    · intro call hc
      rw [h1] at hc
      exact fetchFromPeers_calls sv _ _ _ call hc
    · intro hp
      rw [h1]
      exact fetchFromPeers_ne_nil sv _ _ _ hp

/-- Witness of C19: the sample loop with next turn 0 receives `blockOne`, of
height 1, and `syncHead` asks peers 1 and 2 for the block of height `2^32 - 1`. -/
theorem nextTurn_zero_wraps_witness :
    (processBlock sampleEnv loopAtTurnZero blockOne).pushed = [] ∧
    (processBlock sampleEnv loopAtTurnZero blockOne).stash = [] ∧
    syncHead sampleServices loopAtTurnZero.chain =
      ([Call.FetchBlock 1 4294967295, Call.FetchBlock 2 4294967295], none) ∧
    (syncHead sampleServices loopAtTurnZero.chain).1 ≠ [] :=
  have h1 := (nextTurn_zero_wraps sampleServices sampleEnv).2.1 loopAtTurnZero blockOne
    (by decide) (by decide)
  have h2 := (nextTurn_zero_wraps sampleServices sampleEnv).2.2 loopAtTurnZero.chain
    (by decide) (by decide)
  ⟨h1.1, h1.2.1, by decide, h2.2.2 ⟨1, by decide, by decide⟩⟩

end Sync

/-! ## Turns and block production -/

section Turns

variable {MS BI : Type}

/-- C13: every call of `runCurrentTurn` calls `setNextTurn` exactly once, as its
last call, whether or not it is the turn of this node and whatever
`produceBlock` returns; `produceBlock` is called, once and with the given time,
if and only if `isMyTurn()` is true at the start of the call. -/
theorem runCurrentTurn_events (sv : Services MS) (env : Env MS BI) (c : Chain MS BI)
    (now : Int) :
    (runCurrentTurn sv env c now).2.count TurnEvent.setNextTurn = 1 ∧
    (runCurrentTurn sv env c now).2.getLast? = some TurnEvent.setNextTurn ∧
    (c.rt.isMyTurn = true →
      (runCurrentTurn sv env c now).2 = [TurnEvent.produceBlock now, TurnEvent.setNextTurn] ∧
      (runCurrentTurn sv env c now).1 =
        { (produceBlock sv env c now).chain with
          rt := sv.setNextTurn (produceBlock sv env c now).chain.rt }) ∧
    (c.rt.isMyTurn = false →
      (runCurrentTurn sv env c now).2 = [TurnEvent.setNextTurn] ∧
      (runCurrentTurn sv env c now).1 = { c with rt := sv.setNextTurn c.rt }) ∧
    (TurnEvent.produceBlock now ∈ (runCurrentTurn sv env c now).2 ↔ c.rt.isMyTurn = true) ∧
    (∀ t, (runCurrentTurn sv env c now).2.count (TurnEvent.produceBlock t) ≤
      if t = now then 1 else 0) := by
  cases h : c.rt.isMyTurn
  · refine ⟨?_, ?_, ?_, ?_, ?_, ?_⟩ <;> simp [runCurrentTurn, h]
  · refine ⟨?_, ?_, ?_, ?_, ?_, ?_⟩
    · simp [runCurrentTurn, h]
    · simp [runCurrentTurn, h]
    · simp [runCurrentTurn, h]
    · simp
    · simp [runCurrentTurn, h]
    · intro t
      by_cases ht : t = now
      · simp [runCurrentTurn, h, ht]
      · have ht2 : ¬ now = t := fun h2 => ht h2.symm
        simp [runCurrentTurn, h, ht, ht2]

/-- Witness of C13: on the sample chain it is the turn of the node: the
block is produced at time 10 and the next turn goes from 1 to 2. -/
theorem runCurrentTurn_events_witness :
    (runCurrentTurn sampleServices sampleEnv threePeerChain 10).2 =
      [TurnEvent.produceBlock 10, TurnEvent.setNextTurn] ∧
    (runCurrentTurn sampleServices sampleEnv threePeerChain 10).1.rt.nextTurn = 2 :=
  ⟨((runCurrentTurn_events sampleServices sampleEnv threePeerChain 10).2.2.1 (by decide)).1,
   by decide⟩

/-- A successful `pushBlockWithoutCheck` leaves the peer list, the node
identifier and the caller as they were. -/
theorem pushBlockWithoutCheck_ok_targets (env : Env MS BI) (c c1 : Chain MS BI) (b : BPBlock)
    (h : pushBlockWithoutCheck env c b = (c1, .ok ())) :
    c1.rt.peers = c.rt.peers ∧ c1.rt.nodeID = c.rt.nodeID ∧ c1.cl = c.cl := by
  obtain ⟨_, _, _, _, _, _, -, -, -, -, rfl⟩ := pushBlockWithoutCheck_ok env c c1 b h
  exact ⟨rfl, rfl, rfl⟩

/-- The function run inside the store transaction leaves the caller as it was,
whatever its outcome. -/
theorem pushBlockBatch_cl (env : Env MS BI) (b : BPBlock) (node : blockNode) (state : State)
    (encBlock encState : Bytes) (c : Chain MS BI) :
    (pushBlockBatch env b node state encBlock encState c).1.cl = c.cl := by
  unfold pushBlockBatch
  rcases hput : env.putErr (node.indexKey env) encBlock with _ | e1
  · simp only [putBlockIndex, hput]
    rcases happ : applyTransactions env b.Transactions
        { c with db := { c.db with
          blockIndex := c.db.blockIndex.insert (node.indexKey env) encBlock } }
      with ⟨c2, _ | u⟩
    · have hcl := applyTransactions_cl env _ _ _ _ happ
      exact hcl
    · have hcl := applyTransactions_cl env _ _ _ _ happ
      simp only at hcl ⊢
      rcases hpc : env.partialCommitProcedure b.Transactions c2.ms c2.db.entities
        with ⟨ms3, _ | ent3⟩
      · exact hcl
      · simp only
        rcases hps : env.putErr metaStateKey encState with _ | e2
        · simp only [putState, hps]
          exact hcl
        · simp only [putState, hps]
          exact hcl
  · simp only [putBlockIndex, hput]

/-- `pushBlockWithoutCheck` leaves the caller as it was, whatever its outcome. -/
theorem pushBlockWithoutCheck_cl (env : Env MS BI) (c : Chain MS BI) (b : BPBlock) :
    (pushBlockWithoutCheck env c b).1.cl = c.cl := by
  unfold pushBlockWithoutCheck
  simp only
  cases heb : env.encodeBlock b with
  | error e => rfl
  | ok encBlock =>
    simp only
    cases hes : env.encodeState (pushState c b) with
    | error e => rfl
    | ok encState =>
      simp only [Update]
      have h := pushBlockBatch_cl env b (pushNode c b) (pushState c b) encBlock encState c
      rcases hfn : pushBlockBatch env b (pushNode c b) (pushState c b) encBlock encState c
        with ⟨c1, e | u⟩
      · rw [hfn] at h
        exact h
      · rw [hfn] at h
        simp only
        cases env.commitErr c1.db with
        | none => exact h
        | some e => exact h

/-- `pushBlock` leaves the caller as it was, whatever its outcome: accepting a
block issues no call. -/
theorem pushBlock_cl (env : Env MS BI) (c : Chain MS BI) (b : BPBlock) :
    (pushBlock env c b).1.cl = c.cl := by
  unfold pushBlock
  rcases checkBlock env c b with e | u
  · rfl
  · exact pushBlockWithoutCheck_cl env c b

/-- The number of advise calls for a block to a server is the number of entries
of the peer list naming that server, none for the local node. -/
theorem adviseCalls_count (r : Runtime) (b : BPBlock) (id : NodeID) :
    (adviseCalls r b).count (Call.AdviseNewBlock id b) =
      if id = r.nodeID then 0 else r.peers.count id := by
  unfold adviseCalls adviseTargets
  rw [Multiset.coe_count,
    List.count_map_of_injective _ (fun id => Call.AdviseNewBlock id b)
      (fun x y h => (Call.AdviseNewBlock.inj h).1) id]
  by_cases h : id = r.nodeID
  · rw [if_pos h]
    refine List.count_eq_zero.2 ?_
    intro hm
    have h2 := (List.mem_filter.1 hm).2
    simp [h] at h2
  · rw [if_neg h]
    exact List.count_filter (by simpa using h)

/-- Every advise call for a block carries that block and goes to a server of the
peer list other than the local node. -/
theorem adviseCalls_mem (r : Runtime) (b : BPBlock) (call : Call)
    (h : call ∈ adviseCalls r b) :
    ∃ id, id ∈ r.peers ∧ id ≠ r.nodeID ∧ call = Call.AdviseNewBlock id b := by
  unfold adviseCalls adviseTargets at h
  rw [Multiset.mem_coe, List.mem_map] at h
  obtain ⟨id, hid, rfl⟩ := h
  have h2 := List.mem_filter.1 hid
  exact ⟨id, h2.1, by simpa using h2.2, rfl⟩

/-- C14, as amended: when the local push succeeds, `produceBlock` succeeds, the
chain is the one the push left, and the calls issued are one `AdviseNewBlock`
call carrying the produced block per entry of the peer list whose identifier
differs from that of the local node, so exactly one to each such server when no
server is listed twice, and none to the local node; when the local push fails,
`produceBlock` returns its error and issues no call, as whenever it fails; chain,
result and calls of `produceBlock` are the same whatever the advise calls
return; and `pushBlock`, the acceptance of a block of a peer, issues no call. -/
theorem produceBlock_advise (sv : Services MS) (env : Env MS BI) (c : Chain MS BI) (now : Int) :
    (∀ priv b c2, sv.GetLocalPrivateKey = .ok priv →
      sv.PackAndSignBlock priv (newBlock sv c now (sv.pullTxs c.ms).2) = .ok b →
      pushBlockWithoutCheck env { c with ms := (sv.pullTxs c.ms).1 } b = (c2, .ok ()) →
      (produceBlock sv env c now).result = .ok () ∧
      (produceBlock sv env c now).calls =
        Multiset.ofList
          ((c.rt.peers.filter (fun s => s ≠ c.rt.nodeID)).map
            (fun id => Call.AdviseNewBlock id b)) ∧
      (produceBlock sv env c now).chain =
        { c2 with cl := c.cl + (produceBlock sv env c now).calls } ∧
      (∀ id, id ≠ c.rt.nodeID →
        (produceBlock sv env c now).calls.count (Call.AdviseNewBlock id b) = c.rt.peers.count id) ∧
      (c.rt.peers.Nodup → ∀ id, id ∈ c.rt.peers → id ≠ c.rt.nodeID →
        (produceBlock sv env c now).calls.count (Call.AdviseNewBlock id b) = 1) ∧
      (∀ call, call ∈ (produceBlock sv env c now).calls →
        ∃ id, id ∈ c.rt.peers ∧ id ≠ c.rt.nodeID ∧ call = Call.AdviseNewBlock id b)) ∧
    (∀ priv b c2 e, sv.GetLocalPrivateKey = .ok priv →
      sv.PackAndSignBlock priv (newBlock sv c now (sv.pullTxs c.ms).2) = .ok b →
      pushBlockWithoutCheck env { c with ms := (sv.pullTxs c.ms).1 } b = (c2, .error e) →
      (produceBlock sv env c now).result = .error e ∧
      (produceBlock sv env c now).calls = 0 ∧
      (produceBlock sv env c now).chain = c2) ∧
    ((produceBlock sv env c now).result ≠ .ok () →
      (produceBlock sv env c now).calls = 0 ∧ (produceBlock sv env c now).chain.cl = c.cl) ∧
    (∀ advise : NodeID → BPBlock → Option String,
      (produceBlock { sv with CallAdviseNewBlock := advise } env c now).result =
        (produceBlock sv env c now).result ∧
      (produceBlock { sv with CallAdviseNewBlock := advise } env c now).chain =
        (produceBlock sv env c now).chain ∧
      (produceBlock { sv with CallAdviseNewBlock := advise } env c now).calls =
        (produceBlock sv env c now).calls) ∧
    (∀ b, (pushBlock env c b).1.cl = c.cl) := by
  refine ⟨?_, ?_, ?_, ?_, fun b => pushBlock_cl env c b⟩
  · intro priv b c2 hk hb hp
    obtain ⟨hpeers, hid, hcl⟩ := pushBlockWithoutCheck_ok_targets env _ c2 b hp
    have hr : adviseCalls c2.rt b = adviseCalls c.rt b := by
      unfold adviseCalls adviseTargets
      rw [hpeers, hid]
    have hcalls : (produceBlock sv env c now).calls = adviseCalls c.rt b := by
      simp only [produceBlock, hk, hb, hp, hr]
    refine ⟨?_, ?_, ?_, ?_, ?_, ?_⟩
    · simp only [produceBlock, hk, hb, hp]
    · rw [hcalls]
      rfl
    · rw [hcalls]
      simp only [produceBlock, hk, hb, hp, hr, hcl]
    · intro id hne
      rw [hcalls, adviseCalls_count, if_neg hne]
    · intro hnd id hmem hne
      rw [hcalls, adviseCalls_count, if_neg hne]
      exact List.count_eq_one_of_mem hnd hmem
    · intro call hc
      rw [hcalls] at hc
      exact adviseCalls_mem c.rt b call hc
  · intro priv b c2 e hk hb hp
    refine ⟨?_, ?_, ?_⟩ <;> simp only [produceBlock, hk, hb, hp]
  · intro hne
    rcases hk : sv.GetLocalPrivateKey with e | priv
    · refine ⟨?_, ?_⟩ <;> simp only [produceBlock, hk]
    · rcases hb : sv.PackAndSignBlock priv (newBlock sv c now (sv.pullTxs c.ms).2) with e | b
      · refine ⟨?_, ?_⟩ <;> simp only [produceBlock, hk, hb]
      · rcases hp : pushBlockWithoutCheck env { c with ms := (sv.pullTxs c.ms).1 } b
          with ⟨c2, e | u⟩
        · have h := pushBlockWithoutCheck_cl env { c with ms := (sv.pullTxs c.ms).1 } b
          rw [hp] at h
          refine ⟨?_, ?_⟩
          · simp only [produceBlock, hk, hb, hp]
          · simp only [produceBlock, hk, hb, hp]
            exact h
        · exfalso
          apply hne
          simp only [produceBlock, hk, hb, hp]
  · intro advise
    unfold produceBlock newBlock
    simp only
    rcases sv.GetLocalPrivateKey with e | priv
    · exact ⟨rfl, rfl, rfl⟩
    · simp only
      split
      · exact ⟨rfl, rfl, rfl⟩
      · split <;> exact ⟨rfl, rfl, rfl⟩

/-- Witness of C14 as amended: on the sample chain with peers 0, 1, 2 and local
node 0, the local push of the produced block `blockOne` succeeds and the block is
advised once to peer 1 and once to peer 2; on a full disk the local push fails
and nothing is advised. -/
theorem produceBlock_advise_witness :
    (produceBlock sampleServices sampleEnv threePeerChain 10).result = .ok () ∧
    (produceBlock sampleServices sampleEnv threePeerChain 10).calls =
      Multiset.ofList [Call.AdviseNewBlock 1 blockOne, Call.AdviseNewBlock 2 blockOne] ∧
    (produceBlock sampleServices sampleEnv threePeerChain 10).calls.count
      (Call.AdviseNewBlock 1 blockOne) = 1 ∧
    (produceBlock sampleServices fullDiskEnv threePeerChain 10).result =
      .error (.external "disk full") ∧
    (produceBlock sampleServices fullDiskEnv threePeerChain 10).calls = 0 :=
  have h1 := (produceBlock_advise sampleServices sampleEnv threePeerChain 10).1 [7] blockOne
    (pushBlockWithoutCheck sampleEnv
      { threePeerChain with ms := (sampleServices.pullTxs threePeerChain.ms).1 } blockOne).1
    rfl (by decide) rfl
  have h2 := (produceBlock_advise sampleServices fullDiskEnv threePeerChain 10).2.1 [7] blockOne
    (pushBlockWithoutCheck fullDiskEnv
      { threePeerChain with ms := (sampleServices.pullTxs threePeerChain.ms).1 } blockOne).1
    (.external "disk full") rfl (by decide) rfl
  ⟨h1.1, h1.2.1, h1.2.2.2.2.1 (by decide) 1 (by decide) (by decide), h2.1, h2.2.1⟩

/-- Counterexample to C14 as stated: with the peer list 0, 1, 1 and local node 0,
the local push of `blockOne` succeeds and `produceBlock` issues two
`AdviseNewBlock` calls to server 1, not exactly one. -/
theorem produceBlock_advise_counterexample :
    doubledPeerChain.rt.peers = [0, 1, 1] ∧
    doubledPeerChain.rt.nodeID = 0 ∧
    (produceBlock sampleServices sampleEnv doubledPeerChain 10).result = .ok () ∧
    (produceBlock sampleServices sampleEnv doubledPeerChain 10).chain.rt.getHead.Head =
      blockOne.BlockHash ∧
    (produceBlock sampleServices sampleEnv doubledPeerChain 10).calls.count
      (Call.AdviseNewBlock 1 blockOne) = 2 := by
  refine ⟨by decide, by decide, by decide, by decide, by decide⟩

end Turns

/-! ## The account address used for billing -/

section BillingProperties

variable {MS : Type}

/-- The address `produceBilling` passes to `nextNonce` and writes as producer of
the billing transaction is the package variable `accountAddress`. -/
theorem produceBilling_address (bs : BillingServices MS) (g : Package) (ms : MS)
    (br : BillingRequest) :
    (∀ x, (produceBilling bs g ms br).nonceLookup = some x → x = g.accountAddress) ∧
    (∀ tb, (produceBilling bs g ms br).sent = some tb → tb.Header.Producer = g.accountAddress) := by
  refine ⟨fun x hx => ?_, fun tb htb => ?_⟩
  · unfold produceBilling at hx
    split at hx
    · simp at hx
    · simp only at hx
      split at hx
      · simp at hx
      · split at hx
        · simp at hx
        · split at hx
          · exact (Option.some.inj hx).symm
          · split at hx <;> exact (Option.some.inj hx).symm
  · unfold produceBilling at htb
    split at htb
    · simp at htb
    · simp only at htb
      split at htb
      · simp at htb
      · split at htb
        · simp at htb
        · split at htb
          · simp at htb
          · split at htb
            · simp at htb
            · rw [← Option.some.inj htb]

/-- The step "get accountAddress" in the text of the two constructors: when the
local public key is found and its hash is `a`, the step of `NewChain` on a fresh
data file yields `a` for the runtime but leaves the package variable
`accountAddress` as it was, and `produceBilling` on those package variables
looks up the nonce of, and names as producer, the old value of that variable;
the step of `LoadChain` sets the variable to `a` and `produceBilling` uses `a`. -/
theorem NewChain_accountAddress_shadowed (keys : Keys) (bs : BillingServices MS) (g : Package)
    (ms : MS) (br : BillingRequest) (pubKey : Bytes) (a : AccountAddress)
    (hk : keys.GetLocalPublicKey = .ok pubKey) (hh : keys.PubKeyHash pubKey = (a, none)) :
    getAccountAddress keys false g = (g, .ok a) ∧
    getAccountAddress keys true g = ({ g with accountAddress := a }, .ok a) ∧
    (∀ x, (produceBilling bs (getAccountAddress keys false g).1 ms br).nonceLookup = some x →
      x = g.accountAddress) ∧
    (∀ tb, (produceBilling bs (getAccountAddress keys false g).1 ms br).sent = some tb →
      tb.Header.Producer = g.accountAddress) ∧
    (∀ x, (produceBilling bs (getAccountAddress keys true g).1 ms br).nonceLookup = some x →
      x = a) ∧
    (∀ tb, (produceBilling bs (getAccountAddress keys true g).1 ms br).sent = some tb →
      tb.Header.Producer = a) := by
  have h1 : getAccountAddress keys false g = (g, .ok a) := by
    simp [getAccountAddress, NewChain_getAccountAddress, hk, hh]
  have h2 : getAccountAddress keys true g = ({ g with accountAddress := a }, .ok a) := by
    simp [getAccountAddress, LoadChain_getAccountAddress, hk, hh]
  refine ⟨h1, h2, ?_, ?_, ?_, ?_⟩
  · rw [h1]
    exact (produceBilling_address bs g ms br).1
  · rw [h1]
    exact (produceBilling_address bs g ms br).2
  · rw [h2]
    exact (produceBilling_address bs _ ms br).1
  · rw [h2]
    exact (produceBilling_address bs _ ms br).2

/-- The step "get accountAddress" on the sample keys, whose address is 7: after
the step of `NewChain` the runtime is handed 7 and `produceBilling` on the
package variables looks up the nonce of address 0 and names 0 as producer; after
the step of `LoadChain` it looks up the nonce of address 7. -/
theorem NewChain_accountAddress_shadowed_sample :
    getAccountAddress sampleKeys false Package.initial = (Package.initial, .ok 7) ∧
    (produceBilling sampleBilling (getAccountAddress sampleKeys false Package.initial).1
      ([] : List Transaction) sampleRequest).nonceLookup = some 0 ∧
    ((produceBilling sampleBilling (getAccountAddress sampleKeys false Package.initial).1
      ([] : List Transaction) sampleRequest).sent.map (fun tb => tb.Header.Producer)) = some 0 ∧
    (produceBilling sampleBilling (getAccountAddress sampleKeys true Package.initial).1
      ([] : List Transaction) sampleRequest).nonceLookup = some 7 :=
  ⟨(NewChain_accountAddress_shadowed sampleKeys sampleBilling Package.initial
      ([] : List Transaction) sampleRequest [7] 7 rfl rfl).1,
   by decide, by decide, by decide⟩

end BillingProperties

end BlockProducer

/-! ## Properties of the RPC server -/

namespace Rpc

/-- Adding to a wrapped value and wrapping is wrapping the sum. -/
theorem wrapInt_add_left (a b : Int) : wrapInt (wrapInt a + b) = wrapInt (a + b) := by
  unfold wrapInt
  omega

/-- A value of the 64-bit range is left as it is. -/
theorem wrapInt_of_range (x : Int) (h1 : -2 ^ 63 ≤ x) (h2 : x < 2 ^ 63) : wrapInt x = x := by
  unfold wrapInt
  omega

/-- A call to the only service of a server adds the step to its counter and
replies with the new counter, whichever of the two methods is called. -/
theorem Server.Call_single (name : String) (c : Int) (m : Method) (step : Int) :
    Server.Call { services := [(name, { counter := c })] } name m step =
      ({ services := [(name, { counter := wrapInt (c + step) })] }, .ok (wrapInt (c + step))) := by
  cases m <;>
    simp [Server.Call, List.lookup, TestService.IncCounter, TestService.IncCounterSimpleArgs,
      setService]

/-- The replies of a sequence of calls to the only service of a server, whose
counter is `c` at the start. -/
theorem Server.Calls_single (name : String) :
    ∀ (calls : List (Method × Int)) (c : Int),
      (∀ k, k < calls.length →
        (Server.Calls name { services := [(name, { counter := c })] } calls).2[k]? =
          some (.ok (wrapInt (c + ((calls.take (k + 1)).map Prod.snd).sum)))) ∧
      (Server.Calls name { services := [(name, { counter := c })] } calls).1 =
        { services := [(name, { counter := if calls = [] then c
                                  else wrapInt (c + (calls.map Prod.snd).sum) })] } := by
  intro calls
  induction calls with
  | nil =>
    intro c
    simp [Server.Calls]
  | cons p rest ih =>
    intro c
    obtain ⟨m, step⟩ := p
    obtain ⟨ih1, ih2⟩ := ih (wrapInt (c + step))
    refine ⟨?_, ?_⟩
    · intro k hk
      cases k with
      | zero => simp [Server.Calls, Server.Call_single]
      | succ k =>
        have hk2 : k < rest.length := by simpa using hk
        have h3 := ih1 k hk2
        simp only [Server.Calls, Server.Call_single, List.getElem?_cons_succ, h3,
          List.take_succ_cons, List.map_cons, List.sum_cons, wrapInt_add_left]
        rw [add_assoc]
    · simp only [Server.Calls, Server.Call_single, ih2]
      by_cases hr : rest = []
      · simp [hr]
      · simp [hr, wrapInt_add_left, add_assoc]

/-- C15: for every sequence of steps sent as `IncCounter` or
`IncCounterSimpleArgs` calls to one `TestService` registered on a server, with
counter 0 at the start, the `k`-th call succeeds and its reply is the sum of the
first `k` steps in the `int` arithmetic of the source, that is the sum wrapped to
64 bits, which is the sum itself when it lies in the range of `int`; the
registered instance keeps the counter across calls and both methods share it. -/
theorem testService_running_sum (name : String) (hname : name ≠ "")
    (calls : List (Method × Int)) :
    ∃ srv, NewServerWithService [(name, NewTestService)] = .ok srv ∧
      (∀ k, k < calls.length →
        (Server.Calls name srv calls).2[k]? =
          some (.ok (wrapInt ((calls.take (k + 1)).map Prod.snd).sum))) ∧
      (∀ k, k < calls.length →
        -2 ^ 63 ≤ ((calls.take (k + 1)).map Prod.snd).sum →
        ((calls.take (k + 1)).map Prod.snd).sum < 2 ^ 63 →
        (Server.Calls name srv calls).2[k]? =
          some (.ok ((calls.take (k + 1)).map Prod.snd).sum)) ∧
      (Server.Calls name srv calls).1.services =
        [(name, { counter := wrapInt (calls.map Prod.snd).sum })] := by
  refine ⟨{ services := [(name, { counter := 0 })] }, ?_, ?_, ?_, ?_⟩
  · simp [NewServerWithService, registerAll, NewServer, Server.RegisterService, hname,
      NewTestService]
  · intro k hk
    have h := (Server.Calls_single name calls 0).1 k hk
    simpa using h
  · intro k hk h1 h2
    have h := (Server.Calls_single name calls 0).1 k hk
    rw [h, zero_add, wrapInt_of_range _ h1 h2]
  · rw [(Server.Calls_single name calls 0).2]
    by_cases hc : calls = []
    · simp [hc, wrapInt]
    · simp [hc]

/-- Witness of C15: the calls of the test `TestIncCounter`, whose replies are
10, 20 and 30. -/
theorem testService_running_sum_witness :
    (∃ srv, NewServerWithService [("Test", NewTestService)] = .ok srv ∧
      (∀ k, k < BlockProducer.sampleCalls.length →
        (Server.Calls "Test" srv BlockProducer.sampleCalls).2[k]? =
          some (.ok (wrapInt ((BlockProducer.sampleCalls.take (k + 1)).map Prod.snd).sum))) ∧
      (∀ k, k < BlockProducer.sampleCalls.length →
        -2 ^ 63 ≤ ((BlockProducer.sampleCalls.take (k + 1)).map Prod.snd).sum →
        ((BlockProducer.sampleCalls.take (k + 1)).map Prod.snd).sum < 2 ^ 63 →
        (Server.Calls "Test" srv BlockProducer.sampleCalls).2[k]? =
          some (.ok ((BlockProducer.sampleCalls.take (k + 1)).map Prod.snd).sum)) ∧
      (Server.Calls "Test" srv BlockProducer.sampleCalls).1.services =
        [("Test", { counter := wrapInt (BlockProducer.sampleCalls.map Prod.snd).sum })]) ∧
    (Server.Calls "Test" { services := [("Test", { counter := 0 })] }
      BlockProducer.sampleCalls).2 = [.ok 10, .ok 20, .ok 30] :=
  ⟨testService_running_sum "Test" (by decide) BlockProducer.sampleCalls, by decide⟩

/-- C20, at the failing inputs: when the read of the node header returns no
error and a count other than `HashBSize + 32`, `handleCipher` returns neither a
connection nor an error. In every other case without a connection the error is
not nil, and a connection is returned, with a nil error, only after a full
header was read without error and both the public key of the peer and the local
private key were found. -/
theorem handleCipher_short_read (env : CipherEnv) (read : HeaderRead) :
    (read.err = none → read.rCount ≠ env.HashBSize + 32 →
      handleCipher env read = (none, none)) ∧
    ((handleCipher env read).1 = none →
      ¬ (read.err = none ∧ read.rCount ≠ env.HashBSize + 32) →
      (handleCipher env read).2 ≠ none) ∧
    (∀ conn, (handleCipher env read).1 = some conn →
      read.err = none ∧ read.rCount = env.HashBSize + 32 ∧
      (handleCipher env read).2 = none ∧
      ∃ publicKey privateKey,
        env.GetPublicKey (read.headerBuf.take env.HashBSize) = .ok publicKey ∧
        env.GetLocalPrivateKey = .ok privateKey) := by
  by_cases hc : read.err ≠ none ∨ read.rCount ≠ env.HashBSize + 32
  · have hv : handleCipher env read = (none, read.err) := by
      unfold handleCipher
      rw [if_pos hc]
    refine ⟨fun h1 _ => by rw [hv, h1], ?_, ?_⟩
    · intro _ h2
      rw [hv]
      rcases hc with hc | hc
      · exact hc
      · exact fun h3 => h2 ⟨h3, hc⟩
    · intro conn h1
      rw [hv] at h1
      exact absurd h1 (by simp)
  · have hc1 : read.err = none := by
      by_contra h
      exact hc (Or.inl h)
    have hc2 : read.rCount = env.HashBSize + 32 := by
      by_contra h
      exact hc (Or.inr h)
    refine ⟨fun _ h2 => absurd hc2 h2, ?_, ?_⟩
    · intro h1 _
      cases hp : env.GetPublicKey (read.headerBuf.take env.HashBSize) with
      | error e => simp [handleCipher, hc1, hc2, hp]
      | ok publicKey =>
        cases hl : env.GetLocalPrivateKey with
        | error e => simp [handleCipher, hc1, hc2, hp, hl]
        | ok privateKey => simp [handleCipher, hc1, hc2, hp, hl] at h1
    · intro conn h1
      cases hp : env.GetPublicKey (read.headerBuf.take env.HashBSize) with
      | error e => simp [handleCipher, hc1, hc2, hp] at h1
      | ok publicKey =>
        cases hl : env.GetLocalPrivateKey with
        | error e => simp [handleCipher, hc1, hc2, hp, hl] at h1
        | ok privateKey =>
          refine ⟨hc1, hc2, ?_, publicKey, privateKey, rfl, rfl⟩
          simp [handleCipher, hc1, hc2, hp, hl]

/-- Witness of C20: a read of 10 bytes without error, where 36 are expected,
gives neither a connection nor an error. -/
theorem handleCipher_short_read_witness :
    handleCipher BlockProducer.sampleCipherEnv
      { rCount := 10, err := none, headerBuf := List.replicate 36 1 } = (none, none) :=
  (handleCipher_short_read BlockProducer.sampleCipherEnv
    { rCount := 10, err := none, headerBuf := List.replicate 36 1 }).1 rfl (by decide)

end Rpc
